import Mathlib

/-!
Verification development for the StarNEig shared-memory standard
eigenvalue-problem interface (sep_sm.h) and the generalized eigenvector
support kernels (eigenvectors/generalized/common.c).

The repository slice at hand contains the public interface declarations with
their documented contracts and thin wrappers around LAPACK kernels; the
bodies of the public operations are not part of the slice.  Where a claim is
decided by such a missing body, the corresponding definition below is
modelled from the specification (its doc comment says so explicitly) and the
claim is settled against that model.
-/

namespace StarNEig

/-! ### Status codes

Modelled from the spec: the return contract of every public operation
(`starneig_error_t`, declared in starneig/error.h which is outside the
slice): 0 on success, the negative integer -i when the i-th argument is
invalid, and distinct positive codes for "did not converge" and for an
incomplete reordering. -/

/-- Modelled from the spec: the outcome of a public operation.  The field of
`invalidArgument` is the ordinal position (counted from 1) of the offending
argument. -/
inductive Status where
  | success
  | invalidArgument (i : Nat)
  | didNotConverge
  | notFullyReordered
  deriving DecidableEq, Repr

/-- Modelled from the spec: the integer encoding of a `Status`, following the
documented contract "STARNEIG_SUCCESS (0) on success; negative integer -i
when i-th argument is invalid; positive error code otherwise", with distinct
positive codes for the two documented positive conditions. -/
def Status.code : Status → Int
  | .success => 0
  | .invalidArgument i => -(i : Int)
  | .didNotConverge => 6
  | .notFullyReordered => 7

/-- A status is well-formed when an invalid-argument report names an actual
argument position (counted from 1). -/
def Status.WF : Status → Prop
  | .invalidArgument i => 1 ≤ i
  | _ => True

instance : DecidablePred Status.WF := by
  intro s
  cases s <;> simp [Status.WF] <;> infer_instance

/-! ### Eigenvalue blocks

Modelled from the spec: the Block Classifier output.  The quasi-triangular
diagonal decomposes into 1-by-1 blocks (one real eigenvalue) and 2-by-2
blocks (a complex-conjugate pair a plus/minus i*b). -/

/-- Modelled from the spec: a diagonal block descriptor of the
quasi-triangular Schur matrix.  A `pair` stores the real part and the (not
necessarily sign-normalized) imaginary component of the conjugate pair. -/
inductive EigBlock where
  | real (re : ℚ)
  | pair (re im : ℚ)
  deriving DecidableEq, Repr

/-- The number of diagonal slots a block occupies. -/
def EigBlock.size : EigBlock → Nat
  | .real _ => 1
  | .pair _ _ => 2

/-- Total number of eigenvalue positions covered by a block list. -/
def blockSlots (bs : List EigBlock) : Nat :=
  (bs.map EigBlock.size).sum

/-! ### Selection Helper (starneig_SEP_SM_Select)

Modelled from the spec: iterate the eigenvalue positions once; for a real
eigenvalue call the predicate with (real, 0) and write its boolean result to
one slot; for a conjugate pair call the predicate once, on the representative
with non-negative imaginary part, and write the same boolean to both slots;
return the count of selected positions, a selected pair counting as two. -/

/-- Modelled from the spec: `starneig_SEP_SM_Select` (body not in the slice).
Returns the selection array, the selected count, and the trace of arguments
the predicate was invoked on (one entry per invocation). -/
def selectRun (p : ℚ → ℚ → Bool) : List EigBlock → List Bool × Nat × List (ℚ × ℚ)
  | [] => ([], 0, [])
  | .real r :: bs =>
      let acc := selectRun p bs
      let v := p r 0
      (v :: acc.1, (if v then 1 else 0) + acc.2.1, (r, 0) :: acc.2.2)
  | .pair re im :: bs =>
      let acc := selectRun p bs
      let v := p re |im|
      (v :: v :: acc.1, (if v then 2 else 0) + acc.2.1, (re, |im|) :: acc.2.2)

/-! ### Eigenvalue output lists

Modelled from the spec: the parallel real/imaginary eigenvalue arrays written
by `starneig_SEP_SM_Schur` and wrapped for 2-by-2 blocks by
`starneig_eigvec_gen_dlag2`: a real eigenvalue contributes one entry
(r, 0); a conjugate pair contributes two adjacent entries with the same real
part and opposite imaginary parts of equal magnitude. -/

/-- Modelled from the spec: the eigenvalue list (real and imaginary parts,
one entry per diagonal slot) read off a classified block list. -/
def eigList : List EigBlock → List (ℚ × ℚ)
  | [] => []
  | .real r :: bs => (r, 0) :: eigList bs
  | .pair re im :: bs => (re, |im|) :: (re, -|im|) :: eigList bs

theorem eigList_append (xs ys : List EigBlock) :
    eigList (xs ++ ys) = eigList xs ++ eigList ys := by
  induction xs with
  | nil => rfl
  | cons b bs ih => cases b <;> simp [eigList, ih]

theorem eigList_length (bs : List EigBlock) :
    (eigList bs).length = blockSlots bs := by
  induction bs with
  | nil => rfl
  | cons b bs ih =>
      cases b <;>
        simp [eigList, blockSlots, EigBlock.size, List.map_cons] <;>
        simp [blockSlots] at ih <;> omega

/-! ### Reordering Engine (starneig_SEP_SM_ReorderSchur)

Modelled from the spec: the engine works at the granularity of diagonal
blocks.  It bubbles each selected block leftward past the unselected blocks
before it, one adjacent swap at a time (stable adjacent-transposition sort);
an individual swap may be numerically unsafe, which is modelled by a boolean
safety oracle on the two blocks being exchanged.  On the first unsafe swap
the engine stops; the selection array is rewritten on exit so it marks
exactly the selected eigenvalues that reached the leading position. -/

/-- Modelled from the spec: a diagonal block as seen by the Reordering
Engine: its selection flag, its size (1 or 2 diagonal slots), and an
identifying tag so individual blocks can be traced through swaps. -/
structure Blk where
  sel : Bool
  sz : Nat
  tag : Nat
  deriving DecidableEq, Repr

/-- Modelled from the spec: bubble the selected block `b` leftward past the
list `ps` of unselected blocks standing before it, one adjacent swap at a
time.  `safe u b` tells whether exchanging the adjacent blocks `u` and `b`
is numerically safe.  Returns the rearranged list and whether `b` reached
the front. -/
def bubblePast (safe : Blk → Blk → Bool) (b : Blk) :
    List Blk → List Blk × Bool
  | [] => ([b], true)
  | p :: ps =>
    match bubblePast safe b ps with
    | (ps2, true) => if safe p b then (b :: p :: ps, true) else (p :: ps2, false)
    | (ps2, false) => (p :: ps2, false)

/-- Modelled from the spec: the main loop of the Reordering Engine.
`placed` is the (reversed) list of selected blocks already moved to the
leading position, `pending` the unselected blocks passed over so far (in
order), `rest` the blocks not yet examined.  Returns the final block
sequence, the blocks that reached the leading position (in order), and
whether the reordering completed. -/
def reorderGo (safe : Blk → Blk → Bool) :
    List Blk → List Blk → List Blk → List Blk × List Blk × Bool
  | placed, pending, [] => (placed.reverse ++ pending, placed.reverse, true)
  | placed, pending, b :: rest =>
    if b.sel then
      match bubblePast safe b pending with
      | (_, true) => reorderGo safe (b :: placed) pending rest
      | (pending2, false) =>
          (placed.reverse ++ pending2 ++ rest, placed.reverse, false)
    else
      reorderGo safe placed (pending ++ [b]) rest

/-- Overwrite the selection flag of a block. -/
def setSel (v : Bool) (b : Blk) : Blk :=
  { b with sel := v }

/-- Modelled from the spec: `starneig_SEP_SM_ReorderSchur` at block
granularity (body not in the slice).  Runs the engine and rewrites the
selection flags on exit: exactly the blocks that reached the leading
position stay marked.  Returns the updated block sequence and the status. -/
def reorderSchur (safe : Blk → Blk → Bool) (l : List Blk) :
    List Blk × Status :=
  match reorderGo safe [] [] l with
  | (final, _, true) => (final, .success)
  | (final, placed, false) =>
      ((final.take placed.length).map (setSel true) ++
       (final.drop placed.length).map (setSel false),
       .notFullyReordered)

theorem bubblePast_perm (safe : Blk → Blk → Bool) (b : Blk) (ps : List Blk) :
    ((bubblePast safe b ps).1).Perm (b :: ps) := by
  induction ps with
  | nil => simp [bubblePast]
  | cons p ps ih =>
      rcases hbp : bubblePast safe b ps with ⟨ps2, flag⟩
      rw [hbp] at ih
      cases flag with
      | false =>
          simp only [bubblePast, hbp]
          exact (ih.cons p).trans (List.Perm.swap b p ps)
      | true =>
          simp only [bubblePast, hbp]
          by_cases hs : safe p b
          · simp [hs]
          · simp only [hs, if_false]
            exact (ih.cons p).trans (List.Perm.swap b p ps)

theorem reorderGo_perm (safe : Blk → Blk → Bool) (rest : List Blk) :
    ∀ placed pending : List Blk,
      ((reorderGo safe placed pending rest).1).Perm
        (placed ++ pending ++ rest) := by
  induction rest with
  | nil =>
      intro placed pending
      simpa [reorderGo] using (placed.reverse_perm).append_right pending
  | cons b rest ih =>
      intro placed pending
      by_cases hsel : b.sel
      · rcases hbp : bubblePast safe b pending with ⟨pending2, flag⟩
        have hperm : pending2.Perm (b :: pending) := by
          have h := bubblePast_perm safe b pending
          rw [hbp] at h
          exact h
        cases flag with
        | true =>
            have h1 := ih (b :: placed) pending
            simp only [reorderGo, hsel, if_true, hbp]
            refine h1.trans ?_
            have h2 := (@List.perm_middle _ b (placed ++ pending) rest).symm
            simpa [List.append_assoc] using h2
        | false =>
            simp only [reorderGo, hsel, if_true, hbp]
            have h3 : ((placed.reverse ++ pending2) ++ rest).Perm
                ((placed ++ (b :: pending)) ++ rest) :=
              ((placed.reverse_perm).append hperm).append_right rest
            have h4 : (placed ++ (b :: pending) ++ rest).Perm
                (placed ++ pending ++ (b :: rest)) := by
              have h5 := (@List.perm_middle _ b pending rest).symm
              simpa [List.append_assoc] using h5.append_left placed
            simpa [List.append_assoc] using
              (by simpa [List.append_assoc] using h3 :
                ((placed.reverse ++ pending2) ++ rest).Perm
                  (placed ++ (b :: pending) ++ rest)).trans h4
      · have h1 := ih placed (pending ++ [b])
        simp only [reorderGo, hsel, if_false]
        refine h1.trans ?_
        simp [List.append_assoc]

theorem reorderGo_placed_pre (safe : Blk → Blk → Bool) (rest : List Blk) :
    ∀ placed pending : List Blk,
      ∃ q, (reorderGo safe placed pending rest).1 =
        (reorderGo safe placed pending rest).2.1 ++ q := by
  induction rest with
  | nil =>
      intro placed pending
      exact ⟨pending, rfl⟩
  | cons b rest ih =>
      intro placed pending
      by_cases hsel : b.sel
      · rcases hbp : bubblePast safe b pending with ⟨pending2, flag⟩
        cases flag with
        | true =>
            simp only [reorderGo, hsel, if_true, hbp]
            exact ih (b :: placed) pending
        | false =>
            simp only [reorderGo, hsel, if_true, hbp]
            exact ⟨pending2 ++ rest, by simp [List.append_assoc]⟩
      · simp only [reorderGo, hsel, if_false]
        exact ih placed (pending ++ [b])

theorem reorderGo_placed_sel (safe : Blk → Blk → Bool) (rest : List Blk) :
    ∀ placed pending : List Blk, (∀ x ∈ placed, x.sel = true) →
      ∀ x ∈ (reorderGo safe placed pending rest).2.1, x.sel = true := by
  induction rest with
  | nil =>
      intro placed pending hp x hx
      rw [reorderGo] at hx
      exact hp x (List.mem_reverse.mp hx)
  | cons b rest ih =>
      intro placed pending hp x hx
      by_cases hsel : b.sel
      · rcases hbp : bubblePast safe b pending with ⟨pending2, flag⟩
        cases flag with
        | true =>
            rw [reorderGo] at hx
            simp only [hsel, if_true, hbp] at hx
            refine ih (b :: placed) pending ?_ x hx
            intro y hy
            rcases List.mem_cons.mp hy with h | h
            · rw [h]; exact hsel
            · exact hp y h
        | false =>
            rw [reorderGo] at hx
            simp only [hsel, if_true, hbp] at hx
            exact hp x (List.mem_reverse.mp hx)
      · rw [reorderGo] at hx
        simp only [hsel, if_false] at hx
        exact ih placed (pending ++ [b]) hp x hx

theorem reorderGo_placed_mem (safe : Blk → Blk → Bool) (rest : List Blk) :
    ∀ placed pending : List Blk,
      ∀ x ∈ (reorderGo safe placed pending rest).2.1,
        x ∈ placed ∨ (x ∈ rest ∧ x.sel = true) := by
  induction rest with
  | nil =>
      intro placed pending x hx
      rw [reorderGo] at hx
      exact Or.inl (List.mem_reverse.mp hx)
  | cons b rest ih =>
      intro placed pending x hx
      by_cases hsel : b.sel
      · rcases hbp : bubblePast safe b pending with ⟨pending2, flag⟩
        cases flag with
        | true =>
            rw [reorderGo] at hx
            simp only [hsel, if_true, hbp] at hx
            rcases ih (b :: placed) pending x hx with h | h
            · rcases List.mem_cons.mp h with h1 | h1
              · exact Or.inr ⟨by rw [h1]; exact List.mem_cons_self b rest,
                  by rw [h1]; exact hsel⟩
              · exact Or.inl h1
            · exact Or.inr ⟨List.mem_cons_of_mem b h.1, h.2⟩
        | false =>
            rw [reorderGo] at hx
            simp only [hsel, if_true, hbp] at hx
            exact Or.inl (List.mem_reverse.mp hx)
      · rw [reorderGo] at hx
        simp only [hsel, if_false] at hx
        rcases ih placed (pending ++ [b]) x hx with h | h
        · exact Or.inl h
        · exact Or.inr ⟨List.mem_cons_of_mem b h.1, h.2⟩


theorem setSel_self (v : Bool) (b : Blk) (h : b.sel = v) : setSel v b = b := by
  cases b
  cases h
  rfl

theorem reorderSchur_partial_shape (safe : Blk → Blk → Bool) (l : List Blk)
    (hp : (reorderSchur safe l).2 = Status.notFullyReordered) :
    ∃ placed q : List Blk,
      (reorderSchur safe l).1 =
        placed.map (setSel true) ++ q.map (setSel false) ∧
      (∀ x ∈ placed, x.sel = true) ∧
      (∀ x ∈ placed, x ∈ l) ∧
      (placed ++ q).Perm l := by
  rcases hrg : reorderGo safe [] [] l with ⟨final, placed, flag⟩
  cases flag with
  | true =>
      unfold reorderSchur at hp
      rw [hrg] at hp
      exact absurd hp (by simp)
  | false =>
      obtain ⟨q, hq⟩ : ∃ q, final = placed ++ q := by
        have h := reorderGo_placed_pre safe l [] []
        rw [hrg] at h
        exact h
      refine ⟨placed, q, ?_, ?_, ?_, ?_⟩
      · unfold reorderSchur
        rw [hrg, hq]
        have h1 : (placed ++ q).take placed.length = placed :=
          List.take_left placed q
        have h2 : (placed ++ q).drop placed.length = q :=
          List.drop_left placed q
        simp only [h1, h2]
      · intro x hx
        have h := reorderGo_placed_sel safe l [] [] (by simp)
        rw [hrg] at h
        exact h x hx
      · intro x hx
        have h := reorderGo_placed_mem safe l [] []
        rw [hrg] at h
        rcases h x hx with h1 | h1
        · exact absurd h1 (List.not_mem_nil x)
        · exact h1.1
      · have h := reorderGo_perm safe l [] []
        rw [hrg, hq] at h
        simpa using h

/-- Claim C2: when the Reordering Engine completes only partially, there is a
prefix length k such that the selection flags on exit mark exactly the
blocks of the leading prefix (the entry at position i is marked if and only
if i < k), every block of that prefix is an originally selected block of the
input, the operation returns the partial-reordering status, and the multiset
of diagonal-block sizes is preserved, so the matrix is still
quasi-triangular (only 1-by-1 and 2-by-2 diagonal blocks). -/
theorem C2_reorderSchur_partial (safe : Blk → Blk → Bool) (l : List Blk)
    (hp : (reorderSchur safe l).2 = Status.notFullyReordered) :
    ∃ k, k ≤ (reorderSchur safe l).1.length ∧
      (∀ i b, (reorderSchur safe l).1.get? i = some b →
        (b.sel = true ↔ i < k)) ∧
      (∀ b ∈ (reorderSchur safe l).1.take k, b ∈ l ∧ b.sel = true) ∧
      (((reorderSchur safe l).1.map Blk.sz).Perm (l.map Blk.sz)) ∧
      ((∀ b ∈ l, b.sz = 1 ∨ b.sz = 2) →
        ∀ b ∈ (reorderSchur safe l).1, b.sz = 1 ∨ b.sz = 2) := by
  obtain ⟨placed, q, hout, hsel, hmem, hperm⟩ :=
    reorderSchur_partial_shape safe l hp
  have hmapsz : ((reorderSchur safe l).1.map Blk.sz).Perm (l.map Blk.sz) := by
    rw [hout]
    have hmap : ((placed.map (setSel true) ++ q.map (setSel false)).map Blk.sz)
        = (placed ++ q).map Blk.sz := by
      simp only [List.map_append, List.map_map]
      rfl
    rw [hmap]
    exact hperm.map Blk.sz
  refine ⟨placed.length, ?_, ?_, ?_, hmapsz, ?_⟩
  · rw [hout]
    simp
  · intro i b hib
    rw [hout] at hib
    by_cases hik : i < placed.length
    · have hik2 : i < (placed.map (setSel true)).length := by simpa using hik
      rw [List.get?_append hik2, List.get?_map] at hib
      obtain ⟨b0, _, rfl⟩ := Option.map_eq_some'.mp hib
      simp [setSel, hik]
    · have hik2 : (placed.map (setSel true)).length ≤ i := by
        simpa using Nat.le_of_not_lt hik
      rw [List.get?_append_right hik2, List.get?_map] at hib
      obtain ⟨b0, _, rfl⟩ := Option.map_eq_some'.mp hib
      simp [setSel, hik]
  · intro b hb
    rw [hout] at hb
    have htake : ((placed.map (setSel true) ++ q.map (setSel false)).take
        placed.length) = placed.map (setSel true) :=
      List.take_left' (by simp)
    rw [htake] at hb
    obtain ⟨b0, hb0, rfl⟩ := List.mem_map.mp hb
    rw [setSel_self true b0 (hsel b0 hb0)]
    exact ⟨hmem b0 hb0, hsel b0 hb0⟩
  · intro hsz b hb
    have h1 : b.sz ∈ (reorderSchur safe l).1.map Blk.sz :=
      List.mem_map_of_mem Blk.sz hb
    have h2 : b.sz ∈ l.map Blk.sz := hmapsz.mem_iff.mp h1
    obtain ⟨b2, hb2, hbsz⟩ := List.mem_map.mp h2
    rw [← hbsz]
    exact hsz b2 hb2

/-- Witness for C2: a concrete partially-reordered run.  With a safety
oracle refusing every swap, the selected trailing block cannot reach the
leading position, the run reports the partial status, and the stated
prefix/selection/permutation facts hold at that input. -/
theorem C2_reorderSchur_partial_witness :
    (reorderSchur (fun _ _ => false)
        [⟨false, 1, 0⟩, ⟨true, 1, 1⟩]).2 = Status.notFullyReordered ∧
    (∃ k, k ≤ (reorderSchur (fun _ _ => false)
        [⟨false, 1, 0⟩, ⟨true, 1, 1⟩]).1.length ∧
      (∀ i b, (reorderSchur (fun _ _ => false)
          [⟨false, 1, 0⟩, ⟨true, 1, 1⟩]).1.get? i = some b →
        (b.sel = true ↔ i < k)) ∧
      (∀ b ∈ (reorderSchur (fun _ _ => false)
          [⟨false, 1, 0⟩, ⟨true, 1, 1⟩]).1.take k,
          b ∈ [⟨false, 1, 0⟩, (⟨true, 1, 1⟩ : Blk)] ∧ b.sel = true) ∧
      (((reorderSchur (fun _ _ => false)
          [⟨false, 1, 0⟩, ⟨true, 1, 1⟩]).1.map Blk.sz).Perm
        ([⟨false, 1, 0⟩, (⟨true, 1, 1⟩ : Blk)].map Blk.sz)) ∧
      ((∀ b ∈ [⟨false, 1, 0⟩, (⟨true, 1, 1⟩ : Blk)], b.sz = 1 ∨ b.sz = 2) →
        ∀ b ∈ (reorderSchur (fun _ _ => false)
          [⟨false, 1, 0⟩, ⟨true, 1, 1⟩]).1, b.sz = 1 ∨ b.sz = 2)) :=
  ⟨by decide,
   C2_reorderSchur_partial (fun _ _ => false)
     [⟨false, 1, 0⟩, ⟨true, 1, 1⟩] (by decide)⟩


/-! ### Claim C1: the uniform status contract -/

/-- Claim C1: the status encoding is uniform across the public operations:
the code is 0 exactly on success; it is negative exactly for an
invalid-argument report, in which case it is the negated ordinal of the
offending argument; it is positive exactly for the two failure conditions
"did not converge" and "partial reordering", and those two carry distinct
codes. -/
theorem C1_status_code_contract (s : Status) (hs : s.WF) :
    (s.code = 0 ↔ s = Status.success) ∧
    (s.code < 0 ↔ ∃ i, 1 ≤ i ∧ s = Status.invalidArgument i) ∧
    (∀ i, s = Status.invalidArgument i → s.code = -(i : Int)) ∧
    (0 < s.code ↔
      (s = Status.didNotConverge ∨ s = Status.notFullyReordered)) ∧
    Status.didNotConverge.code ≠ Status.notFullyReordered.code := by
  cases s with
  | success =>
      refine ⟨by simp [Status.code], ?_, ?_, ?_, by decide⟩
      · constructor
        · intro h
          exact absurd h (by simp [Status.code])
        · rintro ⟨i, _, h⟩
          cases h
      · intro i h
        cases h
      · constructor
        · intro h
          exact absurd h (by simp [Status.code])
        · rintro (h | h) <;> cases h
  | invalidArgument i =>
      have hi : 1 ≤ i := hs
      refine ⟨?_, ?_, ?_, ?_, by decide⟩
      · constructor
        · intro h
          simp only [Status.code] at h
          omega
        · intro h
          cases h
      · constructor
        · intro _
          exact ⟨i, hi, rfl⟩
        · intro _
          simp only [Status.code]
          omega
      · intro j hj
        cases hj
        rfl
      · constructor
        · intro h
          simp only [Status.code] at h
          omega
        · rintro (h | h) <;> cases h
  | didNotConverge =>
      refine ⟨by simp [Status.code], ?_, ?_, by simp [Status.code], by decide⟩
      · constructor
        · intro h
          simp [Status.code] at h
        · rintro ⟨i, _, h⟩
          cases h
      · intro i h
        cases h
  | notFullyReordered =>
      refine ⟨by simp [Status.code], ?_, ?_, by simp [Status.code], by decide⟩
      · constructor
        · intro h
          simp [Status.code] at h
        · rintro ⟨i, _, h⟩
          cases h
      · intro i h
        cases h

/-- Witness for C1: the contract evaluated at the concrete status reporting
the third argument as invalid. -/
theorem C1_status_code_contract_witness :
    (Status.invalidArgument 3).WF ∧
    (((Status.invalidArgument 3).code = 0 ↔
        Status.invalidArgument 3 = Status.success) ∧
     ((Status.invalidArgument 3).code < 0 ↔
        ∃ i, 1 ≤ i ∧ Status.invalidArgument 3 = Status.invalidArgument i) ∧
     (∀ i, Status.invalidArgument 3 = Status.invalidArgument i →
        (Status.invalidArgument 3).code = -(i : Int)) ∧
     (0 < (Status.invalidArgument 3).code ↔
        (Status.invalidArgument 3 = Status.didNotConverge ∨
         Status.invalidArgument 3 = Status.notFullyReordered)) ∧
     Status.didNotConverge.code ≠ Status.notFullyReordered.code) :=
  ⟨by decide, C1_status_code_contract (Status.invalidArgument 3) (by decide)⟩

/-! ### Claim C4: the Selection Helper contract -/

/-- The argument the Selection Helper hands to the caller predicate for a
block: (eigenvalue, 0) for a real eigenvalue, and the representative with
non-negative imaginary part for a conjugate pair.  This definition follows
the spec wording and is compared against the behaviour of selectRun. -/
def callOf : EigBlock → ℚ × ℚ
  | .real r => (r, 0)
  | .pair re im => (re, |im|)

/-- The slot values the Selection Helper writes for a block: one boolean for
a real eigenvalue, the same boolean twice for a conjugate pair.  This
definition follows the spec wording and is compared against the behaviour
of selectRun. -/
def slotWrites (p : ℚ → ℚ → Bool) : EigBlock → List Bool
  | .real r => [p r 0]
  | .pair re im => [p re |im|, p re |im|]

/-- Claim C4: the Selection Helper iterates the eigenvalue positions once
and calls the predicate exactly once per block, in order, on (real, 0) for
a real eigenvalue and on the representative with non-negative imaginary
part for a conjugate pair; the selection array consists of the predicate's
boolean per real slot and the same boolean written to both slots of a pair;
its length is the number of eigenvalue positions; and the returned count is
the number of selected positions, a selected pair counting as two. -/
theorem C4_selectRun_contract (p : ℚ → ℚ → Bool) (bs : List EigBlock) :
    (selectRun p bs).1 = (bs.map (slotWrites p)).join ∧
    (selectRun p bs).2.2 = bs.map callOf ∧
    (∀ c ∈ (selectRun p bs).2.2, 0 ≤ c.2) ∧
    (selectRun p bs).2.1 = (selectRun p bs).1.count true ∧
    (selectRun p bs).1.length = blockSlots bs := by
  induction bs with
  | nil => exact ⟨rfl, rfl, by simp [selectRun], rfl, rfl⟩
  | cons b bs ih =>
      obtain ⟨ih1, ih2, ih3, ih4, ih5⟩ := ih
      cases b with
      | real r =>
          refine ⟨?_, ?_, ?_, ?_, ?_⟩
          · simp [selectRun, slotWrites, ih1]
          · simp [selectRun, callOf, ih2]
          · intro c hc
            simp only [selectRun] at hc
            rcases List.mem_cons.mp hc with h | h
            · rw [h]
            · exact ih3 c h
          · simp only [selectRun, List.count_cons, ih4]
            cases hv : p r 0 <;> simp [hv] <;> omega
          · simp only [selectRun, List.length_cons, ih5]
            simp [blockSlots, EigBlock.size]
            omega
      | pair re im =>
          refine ⟨?_, ?_, ?_, ?_, ?_⟩
          · simp [selectRun, slotWrites, ih1]
          · simp [selectRun, callOf, ih2]
          · intro c hc
            simp only [selectRun] at hc
            rcases List.mem_cons.mp hc with h | h
            · rw [h]
              simp [abs_nonneg]
            · exact ih3 c h
          · simp only [selectRun, List.count_cons, ih4]
            cases hv : p re |im| <;> simp [hv] <;> omega
          · simp only [selectRun, List.length_cons, ih5]
            simp [blockSlots, EigBlock.size]
            omega

/-! ### Claim C8: eigenvalue list entries of a 2-by-2 block -/

/-- Claim C8: the eigenvalue output list has one entry per diagonal slot,
and wherever the block structure contains a 2-by-2 block the list
decomposes around two adjacent entries whose real parts agree (so their
absolute values agree) and whose imaginary parts are opposite, of equal
magnitude. -/
theorem C8_eigList_pair_entries (pre post : List EigBlock) (re im : ℚ) :
    (eigList (pre ++ EigBlock.pair re im :: post)).length =
      blockSlots (pre ++ EigBlock.pair re im :: post) ∧
    ∃ e1 e2 : ℚ × ℚ,
      eigList (pre ++ EigBlock.pair re im :: post) =
        eigList pre ++ e1 :: e2 :: eigList post ∧
      e1.1 = e2.1 ∧ |e1.1| = |e2.1| ∧ e1.2 = -e2.2 ∧ |e1.2| = |e2.2| := by
  refine ⟨eigList_length _, ⟨(re, |im|), (re, -|im|), ?_, rfl, rfl, ?_, ?_⟩⟩
  · rw [eigList_append]
    rfl
  · simp
  · simp


/-! ### Claim C3: a Block-Swap step preserves the similarity relation -/

open Matrix

/-- Modelled from the spec: one Block-Swap (or reduction) step of the
Reordering Engine on the pair (S, Q): an orthogonal rotation U is applied
to the Schur matrix as a similarity transformation and accumulated into the
orthogonal factor, S becoming U-transpose * S * U and Q becoming Q * U. -/
def applySwap {n : ℕ} (U S Q : Matrix (Fin n) (Fin n) ℚ) :
    Matrix (Fin n) (Fin n) ℚ × Matrix (Fin n) (Fin n) ℚ :=
  (Uᵀ * S * U, Q * U)

/-- Claim C3: every swap step preserves the relation "original matrix equals
Q * S * Q-transpose": for an orthogonal rotation U, the product
Q_new * S_new * Q_new-transpose after the step equals
Q_old * S_old * Q_old-transpose before it (exactly, in the exact-arithmetic
model). -/
theorem C3_applySwap_preserves_similarity {n : ℕ}
    (U S Q : Matrix (Fin n) (Fin n) ℚ) (hU : U * Uᵀ = 1) :
    (applySwap U S Q).2 * (applySwap U S Q).1 * ((applySwap U S Q).2)ᵀ =
      Q * S * Qᵀ := by
  have key : ∀ X : Matrix (Fin n) (Fin n) ℚ, U * (Uᵀ * X) = X := by
    intro X
    rw [← Matrix.mul_assoc, hU, Matrix.one_mul]
  simp only [applySwap, Matrix.transpose_mul, Matrix.mul_assoc, key]

/-- Witness for C3: the similarity relation checked on a concrete swap: the
order-2 exchange rotation applied to a concrete 2-by-2 quasi-triangular
matrix with Q the identity. -/
theorem C3_applySwap_preserves_similarity_witness :
    (!![(0 : ℚ), 1; 1, 0] * (!![(0 : ℚ), 1; 1, 0])ᵀ = 1) ∧
    ((applySwap !![(0 : ℚ), 1; 1, 0] !![(1 : ℚ), 2; 0, 3] 1).2 *
       (applySwap !![(0 : ℚ), 1; 1, 0] !![(1 : ℚ), 2; 0, 3] 1).1 *
       ((applySwap !![(0 : ℚ), 1; 1, 0] !![(1 : ℚ), 2; 0, 3] 1).2)ᵀ =
      1 * !![(1 : ℚ), 2; 0, 3] * (1 : Matrix (Fin 2) (Fin 2) ℚ)ᵀ) :=
  have h : !![(0 : ℚ), 1; 1, 0] * (!![(0 : ℚ), 1; 1, 0])ᵀ = 1 := by
    have ht : (!![(0 : ℚ), 1; 1, 0])ᵀ = !![(0 : ℚ), 1; 1, 0] := by
      ext i j
      fin_cases i <;> fin_cases j <;> rfl
    rw [ht]
    ext i j
    fin_cases i <;> fin_cases j <;>
      simp [Matrix.mul_apply, Fin.sum_univ_two, Matrix.one_apply]
  ⟨h, C3_applySwap_preserves_similarity !![(0 : ℚ), 1; 1, 0]
    !![(1 : ℚ), 2; 0, 3] 1 h⟩

/-! ### Claim C5: the Small-System Solver (starneig_eigvec_gen_dlaln2)

The wrapper starneig_eigvec_gen_dlaln2 in
src/src/eigenvectors/generalized/common.c forwards to the LAPACK kernel
dlaln2, whose body is outside the slice; the solvers below are modelled
from the spec over exact rationals and together cover all four quadrants
of the solver's call space: dlaln2_1 is the 1-by-1 coefficient block with
real (nw = 1) or complex (nw = 2) shift (a 1-by-1 block equals its own
transpose, so the transposed variant coincides with the plain one);
dlaln2_2 is the 2-by-2 block with a real shift (nw = 1), plain or
transposed; dlaln2_2c is the 2-by-2 block with a complex shift (nw = 2),
plain or transposed. -/

/-- Output bundle of the Small-System Solver model: the solution (x1 real
part, x2 imaginary part), the applied right-hand-side scale factor, the
infinity-norm estimate of the solution, and the degeneracy flag. -/
structure Laln2Out where
  x1 : ℚ
  x2 : ℚ
  scale : ℚ
  xnorm : ℚ
  info : Nat
  deriving DecidableEq, Repr

/-- Modelled from the spec: the overflow-avoiding right-hand-side scale
factor: when the coefficient norm is small and the right-hand-side norm is
both large and above the overflow threshold relative to the coefficient,
scale down by the right-hand-side norm; otherwise solve unscaled. -/
def safeScale (cnorm bnorm bignum : ℚ) : ℚ :=
  if cnorm < 1 ∧ 1 < bnorm ∧ bignum * cnorm < bnorm then 1 / bnorm else 1

/-- Modelled from the spec: the Small-System Solver for a 1-by-1 coefficient
block (LAPACK dlaln2 with na = 1; its body is outside the slice).  The
coefficient is ca*a shifted through the diagonal scalar d1 by the complex
value (wr, wi); the right-hand side is b1 (real) and b2 (imaginary part,
used when nw = 2).  A coefficient smaller than smin in one-norm is floored
to smin and reported through info = 1; when the solution could overflow
the right-hand side is scaled down first by safeScale. -/
def dlaln2_1 (nw : Nat) (smin bignum ca a d1 wr wi b1 b2 : ℚ) : Laln2Out :=
  if nw = 1 then
    let cr := if |ca * a - wr * d1| < smin then smin else ca * a - wr * d1
    let scale := safeScale |cr| |b1| bignum
    { x1 := b1 * scale / cr, x2 := 0, scale := scale,
      xnorm := |b1 * scale / cr|,
      info := if |ca * a - wr * d1| < smin then 1 else 0 }
  else
    let cr := if |ca * a - wr * d1| + |(-(wi * d1))| < smin then smin
              else ca * a - wr * d1
    let ci := if |ca * a - wr * d1| + |(-(wi * d1))| < smin then 0
              else -(wi * d1)
    let scale := safeScale (|cr| + |ci|) (|b1| + |b2|) bignum
    let d := cr * cr + ci * ci
    { x1 := (scale * b1 * cr + scale * b2 * ci) / d,
      x2 := (scale * b2 * cr - scale * b1 * ci) / d,
      scale := scale,
      xnorm := |(scale * b1 * cr + scale * b2 * ci) / d| +
               |(scale * b2 * cr - scale * b1 * ci) / d|,
      info := if |ca * a - wr * d1| + |(-(wi * d1))| < smin then 1 else 0 }

theorem safeScale_bounds (cnorm bnorm bignum : ℚ) :
    0 < safeScale cnorm bnorm bignum ∧ safeScale cnorm bnorm bignum ≤ 1 := by
  unfold safeScale
  split_ifs with hc
  · have hb : (1 : ℚ) < bnorm := hc.2.1
    have hb0 : (0 : ℚ) < bnorm := lt_trans one_pos hb
    exact ⟨one_div_pos.mpr hb0, by rw [div_le_one hb0]; exact hb.le⟩
  · exact ⟨one_pos, le_refl 1⟩

theorem dlaln2_1_nw1_deg (smin bignum ca a d1 wr wi b1 b2 : ℚ)
    (hdeg : |ca * a - wr * d1| < smin) :
    dlaln2_1 1 smin bignum ca a d1 wr wi b1 b2 =
      { x1 := b1 * safeScale |smin| |b1| bignum / smin, x2 := 0,
        scale := safeScale |smin| |b1| bignum,
        xnorm := |b1 * safeScale |smin| |b1| bignum / smin|,
        info := 1 } := by
  simp [dlaln2_1, hdeg]

theorem dlaln2_1_nw1_reg (smin bignum ca a d1 wr wi b1 b2 : ℚ)
    (hdeg : ¬ (|ca * a - wr * d1| < smin)) :
    dlaln2_1 1 smin bignum ca a d1 wr wi b1 b2 =
      { x1 := b1 * safeScale |ca * a - wr * d1| |b1| bignum /
                (ca * a - wr * d1),
        x2 := 0,
        scale := safeScale |ca * a - wr * d1| |b1| bignum,
        xnorm := |b1 * safeScale |ca * a - wr * d1| |b1| bignum /
                (ca * a - wr * d1)|,
        info := 0 } := by
  simp [dlaln2_1, hdeg]

theorem dlaln2_1_nw2_deg (nw : Nat) (hnw : ¬ (nw = 1))
    (smin bignum ca a d1 wr wi b1 b2 : ℚ)
    (hdeg : |ca * a - wr * d1| + |wi * d1| < smin) :
    dlaln2_1 nw smin bignum ca a d1 wr wi b1 b2 =
      { x1 := safeScale |smin| (|b1| + |b2|) bignum * b1 * smin /
                (smin * smin),
        x2 := safeScale |smin| (|b1| + |b2|) bignum * b2 * smin /
                (smin * smin),
        scale := safeScale |smin| (|b1| + |b2|) bignum,
        xnorm := |safeScale |smin| (|b1| + |b2|) bignum * b1 * smin /
                (smin * smin)| +
            |safeScale |smin| (|b1| + |b2|) bignum * b2 * smin /
                (smin * smin)|,
        info := 1 } := by
  simp [dlaln2_1, hnw, abs_neg, hdeg]

theorem dlaln2_1_nw2_reg (nw : Nat) (hnw : ¬ (nw = 1))
    (smin bignum ca a d1 wr wi b1 b2 : ℚ)
    (hdeg : ¬ (|ca * a - wr * d1| + |wi * d1| < smin)) :
    dlaln2_1 nw smin bignum ca a d1 wr wi b1 b2 =
      { x1 := (safeScale (|ca * a - wr * d1| + |wi * d1|) (|b1| + |b2|)
                  bignum * b1 * (ca * a - wr * d1) +
               -(safeScale (|ca * a - wr * d1| + |wi * d1|) (|b1| + |b2|)
                  bignum * b2 * (wi * d1))) /
              ((ca * a - wr * d1) * (ca * a - wr * d1) + wi * d1 * (wi * d1)),
        x2 := (safeScale (|ca * a - wr * d1| + |wi * d1|) (|b1| + |b2|)
                  bignum * b2 * (ca * a - wr * d1) +
               safeScale (|ca * a - wr * d1| + |wi * d1|) (|b1| + |b2|)
                  bignum * b1 * (wi * d1)) /
              ((ca * a - wr * d1) * (ca * a - wr * d1) + wi * d1 * (wi * d1)),
        scale := safeScale (|ca * a - wr * d1| + |wi * d1|) (|b1| + |b2|)
                  bignum,
        xnorm := |(safeScale (|ca * a - wr * d1| + |wi * d1|) (|b1| + |b2|)
                  bignum * b1 * (ca * a - wr * d1) +
               -(safeScale (|ca * a - wr * d1| + |wi * d1|) (|b1| + |b2|)
                  bignum * b2 * (wi * d1))) /
              ((ca * a - wr * d1) * (ca * a - wr * d1) +
                wi * d1 * (wi * d1))| +
            |(safeScale (|ca * a - wr * d1| + |wi * d1|) (|b1| + |b2|)
                  bignum * b2 * (ca * a - wr * d1) +
               safeScale (|ca * a - wr * d1| + |wi * d1|) (|b1| + |b2|)
                  bignum * b1 * (wi * d1)) /
              ((ca * a - wr * d1) * (ca * a - wr * d1) +
                wi * d1 * (wi * d1))|,
        info := 0 } := by
  simp [dlaln2_1, hnw, abs_neg, hdeg]

theorem dlaln2_1_contract (nw : Nat) (smin bignum ca a d1 wr wi b1 b2 : ℚ)
    (o : Laln2Out) (ho : o = dlaln2_1 nw smin bignum ca a d1 wr wi b1 b2)
    (hsmin : 0 < smin) :
    0 < o.scale ∧ o.scale ≤ 1 ∧
    (nw = 1 →
      ∃ cr : ℚ,
        (o.info = 1 ↔ |ca * a - wr * d1| < smin) ∧
        (o.info = 0 → cr = ca * a - wr * d1) ∧
        (o.info = 1 → cr = smin) ∧
        cr ≠ 0 ∧
        cr * o.x1 = o.scale * b1 ∧
        o.x2 = 0 ∧
        o.xnorm = |o.x1|) ∧
    (nw ≠ 1 →
      ∃ cr ci : ℚ,
        (o.info = 1 ↔ |ca * a - wr * d1| + |wi * d1| < smin) ∧
        (o.info = 0 → cr = ca * a - wr * d1 ∧ ci = -(wi * d1)) ∧
        (o.info = 1 → cr = smin ∧ ci = 0) ∧
        (cr ≠ 0 ∨ ci ≠ 0) ∧
        cr * o.x1 - ci * o.x2 = o.scale * b1 ∧
        ci * o.x1 + cr * o.x2 = o.scale * b2 ∧
        o.xnorm = |o.x1| + |o.x2|) := by
  have hsne : smin ≠ 0 := ne_of_gt hsmin
  by_cases hnw : nw = 1
  · subst hnw
    by_cases hdeg : |ca * a - wr * d1| < smin
    · rw [dlaln2_1_nw1_deg smin bignum ca a d1 wr wi b1 b2 hdeg] at ho
      subst ho
      refine ⟨(safeScale_bounds _ _ _).1, (safeScale_bounds _ _ _).2,
        ?_, fun h => absurd rfl h⟩
      intro _
      refine ⟨smin, by simpa using hdeg, by simp, fun _ => rfl, hsne,
        ?_, rfl, rfl⟩
      field_simp
      ring
    · rw [dlaln2_1_nw1_reg smin bignum ca a d1 wr wi b1 b2 hdeg] at ho
      subst ho
      have hcr : ca * a - wr * d1 ≠ 0 := by
        intro h
        rw [h] at hdeg
        simp only [abs_zero] at hdeg
        exact hdeg hsmin
      refine ⟨(safeScale_bounds _ _ _).1, (safeScale_bounds _ _ _).2,
        ?_, fun h => absurd rfl h⟩
      intro _
      refine ⟨ca * a - wr * d1, by simpa using hdeg, fun _ => rfl,
        by simp, hcr, ?_, rfl, rfl⟩
      field_simp
      ring
  · by_cases hdeg : |ca * a - wr * d1| + |wi * d1| < smin
    · rw [dlaln2_1_nw2_deg nw hnw smin bignum ca a d1 wr wi b1 b2 hdeg] at ho
      subst ho
      refine ⟨(safeScale_bounds _ _ _).1, (safeScale_bounds _ _ _).2,
        fun h => absurd h hnw, ?_⟩
      intro _
      refine ⟨smin, 0, by simpa using hdeg, by simp, fun _ => ⟨rfl, rfl⟩,
        Or.inl hsne, ?_, ?_, rfl⟩
      · field_simp
        ring
      · field_simp
        ring
    · rw [dlaln2_1_nw2_reg nw hnw smin bignum ca a d1 wr wi b1 b2 hdeg] at ho
      subst ho
      have habs : 0 < |ca * a - wr * d1| + |wi * d1| :=
        lt_of_lt_of_le hsmin (le_of_not_lt hdeg)
      have hne : ca * a - wr * d1 ≠ 0 ∨ -(wi * d1) ≠ 0 := by
        by_contra h
        push_neg at h
        have h2 : wi * d1 = 0 := by
          have := h.2
          linarith [neg_eq_zero.mp (by linarith [this] : -(wi * d1) = 0)]
        rw [h.1, h2] at habs
        simp at habs
      have hd : (ca * a - wr * d1) * (ca * a - wr * d1) +
          wi * d1 * (wi * d1) ≠ 0 := by
        rcases hne with h | h
        · have h1 : 0 < (ca * a - wr * d1) * (ca * a - wr * d1) :=
            mul_self_pos.mpr h
          have h2 : 0 ≤ wi * d1 * (wi * d1) := mul_self_nonneg _
          intro hzero
          linarith
        · have h0 : wi * d1 ≠ 0 := fun hz => h (by rw [hz, neg_zero])
          have h1 : 0 < wi * d1 * (wi * d1) := mul_self_pos.mpr h0
          have h2 : 0 ≤ (ca * a - wr * d1) * (ca * a - wr * d1) :=
            mul_self_nonneg _
          intro hzero
          linarith
      refine ⟨(safeScale_bounds _ _ _).1, (safeScale_bounds _ _ _).2,
        fun h => absurd h hnw, ?_⟩
      intro _
      refine ⟨ca * a - wr * d1, -(wi * d1), by simpa using hdeg,
        fun _ => ⟨rfl, rfl⟩, by simp, hne, ?_, ?_, rfl⟩
      · field_simp
        ring
      · field_simp
        ring

/-- Modelled from the spec: the Small-System Solver for a 2-by-2
coefficient block with a real shift (LAPACK dlaln2 with na = 2, nw = 1; its
body is outside the slice).  The coefficient is ca*A shifted by wr through
the diagonal scalars d1, d2; a transposed call solves the transposed
system, which swaps the two off-diagonal entries.  A block whose
determinant falls below smin in magnitude is floored to the smin-scaled
identity and reported through info = 1; the right-hand side is scaled down
first by safeScale when the solution could overflow. -/
def dlaln2_2 (ltrans : Bool)
    (smin bignum ca a11 a12 a21 a22 d1 d2 wr b1 b2 : ℚ) : Laln2Out :=
  let c11 := ca * a11 - wr * d1
  let c12 := ca * a12
  let c21 := ca * a21
  let c22 := ca * a22 - wr * d2
  let t12 := if ltrans then c21 else c12
  let t21 := if ltrans then c12 else c21
  let deg := |c11 * c22 - c12 * c21| < smin
  let e11 := if deg then smin else c11
  let e12 := if deg then 0 else t12
  let e21 := if deg then 0 else t21
  let e22 := if deg then smin else c22
  let det := e11 * e22 - e12 * e21
  let scale := safeScale |det| (max |b1| |b2|) bignum
  let x1 := (scale * b1 * e22 - scale * b2 * e12) / det
  let x2 := (scale * b2 * e11 - scale * b1 * e21) / det
  { x1 := x1, x2 := x2, scale := scale, xnorm := max |x1| |x2|,
    info := if deg then 1 else 0 }

theorem dlaln2_2_deg (ltrans : Bool)
    (smin bignum ca a11 a12 a21 a22 d1 d2 wr b1 b2 : ℚ)
    (hdeg : |(ca * a11 - wr * d1) * (ca * a22 - wr * d2) -
      ca * a12 * (ca * a21)| < smin) :
    dlaln2_2 ltrans smin bignum ca a11 a12 a21 a22 d1 d2 wr b1 b2 =
      { x1 := (safeScale |smin * smin - 0 * 0| (max |b1| |b2|) bignum *
                b1 * smin -
               safeScale |smin * smin - 0 * 0| (max |b1| |b2|) bignum *
                b2 * 0) / (smin * smin - 0 * 0),
        x2 := (safeScale |smin * smin - 0 * 0| (max |b1| |b2|) bignum *
                b2 * smin -
               safeScale |smin * smin - 0 * 0| (max |b1| |b2|) bignum *
                b1 * 0) / (smin * smin - 0 * 0),
        scale := safeScale |smin * smin - 0 * 0| (max |b1| |b2|) bignum,
        xnorm := max
          |(safeScale |smin * smin - 0 * 0| (max |b1| |b2|) bignum *
                b1 * smin -
             safeScale |smin * smin - 0 * 0| (max |b1| |b2|) bignum *
                b2 * 0) / (smin * smin - 0 * 0)|
          |(safeScale |smin * smin - 0 * 0| (max |b1| |b2|) bignum *
                b2 * smin -
             safeScale |smin * smin - 0 * 0| (max |b1| |b2|) bignum *
                b1 * 0) / (smin * smin - 0 * 0)|,
        info := 1 } := by
  simp only [dlaln2_2, if_pos hdeg]

theorem dlaln2_2_reg (ltrans : Bool)
    (smin bignum ca a11 a12 a21 a22 d1 d2 wr b1 b2 : ℚ)
    (hdeg : ¬ (|(ca * a11 - wr * d1) * (ca * a22 - wr * d2) -
      ca * a12 * (ca * a21)| < smin)) :
    dlaln2_2 ltrans smin bignum ca a11 a12 a21 a22 d1 d2 wr b1 b2 =
      (let e12 := if ltrans then ca * a21 else ca * a12
       let e21 := if ltrans then ca * a12 else ca * a21
       let det := (ca * a11 - wr * d1) * (ca * a22 - wr * d2) - e12 * e21
       let scale := safeScale |det| (max |b1| |b2|) bignum
       { x1 := (scale * b1 * (ca * a22 - wr * d2) - scale * b2 * e12) / det,
         x2 := (scale * b2 * (ca * a11 - wr * d1) - scale * b1 * e21) / det,
         scale := scale,
         xnorm := max
           |(scale * b1 * (ca * a22 - wr * d2) - scale * b2 * e12) / det|
           |(scale * b2 * (ca * a11 - wr * d1) - scale * b1 * e21) / det|,
         info := 0 }) := by
  simp only [dlaln2_2, if_neg hdeg]

theorem cramer2_solve (e11 e12 e21 e22 s b1 b2 : ℚ)
    (hd : e11 * e22 - e12 * e21 ≠ 0) :
    e11 * ((s * b1 * e22 - s * b2 * e12) / (e11 * e22 - e12 * e21)) +
      e12 * ((s * b2 * e11 - s * b1 * e21) / (e11 * e22 - e12 * e21)) =
        s * b1 ∧
    e21 * ((s * b1 * e22 - s * b2 * e12) / (e11 * e22 - e12 * e21)) +
      e22 * ((s * b2 * e11 - s * b1 * e21) / (e11 * e22 - e12 * e21)) =
        s * b2 := by
  constructor <;> (field_simp; ring)

theorem dlaln2_2_contract (ltrans : Bool)
    (smin bignum ca a11 a12 a21 a22 d1 d2 wr b1 b2 : ℚ) (o2 : Laln2Out)
    (ho2 : o2 = dlaln2_2 ltrans smin bignum ca a11 a12 a21 a22 d1 d2 wr b1 b2)
    (hsmin : 0 < smin) :
    0 < o2.scale ∧ o2.scale ≤ 1 ∧
    ∃ e11 e12 e21 e22 : ℚ,
      (o2.info = 1 ↔ |(ca * a11 - wr * d1) * (ca * a22 - wr * d2) -
        ca * a12 * (ca * a21)| < smin) ∧
      (o2.info = 0 → e11 = ca * a11 - wr * d1 ∧ e22 = ca * a22 - wr * d2 ∧
        e12 = (if ltrans then ca * a21 else ca * a12) ∧
        e21 = (if ltrans then ca * a12 else ca * a21)) ∧
      (o2.info = 1 → e11 = smin ∧ e12 = 0 ∧ e21 = 0 ∧ e22 = smin) ∧
      e11 * e22 - e12 * e21 ≠ 0 ∧
      e11 * o2.x1 + e12 * o2.x2 = o2.scale * b1 ∧
      e21 * o2.x1 + e22 * o2.x2 = o2.scale * b2 ∧
      o2.xnorm = max |o2.x1| |o2.x2| := by
  have hsne : smin ≠ 0 := ne_of_gt hsmin
  by_cases hdeg : |(ca * a11 - wr * d1) * (ca * a22 - wr * d2) -
      ca * a12 * (ca * a21)| < smin
  · rw [dlaln2_2_deg ltrans smin bignum ca a11 a12 a21 a22 d1 d2 wr b1 b2
      hdeg] at ho2
    subst ho2
    have hd : smin * smin - 0 * 0 ≠ 0 := by
      have : (0 : ℚ) < smin * smin := by positivity
      intro h
      rw [mul_zero, sub_zero] at h
      exact absurd h (ne_of_gt this)
    have hc := cramer2_solve smin 0 0 smin
      (safeScale |smin * smin - 0 * 0| (max |b1| |b2|) bignum) b1 b2 hd
    exact ⟨(safeScale_bounds _ _ _).1, (safeScale_bounds _ _ _).2,
      smin, 0, 0, smin, by simpa using hdeg, by simp,
      fun _ => ⟨rfl, rfl, rfl, rfl⟩, hd, hc.1, hc.2, rfl⟩
  · have hdet0 : (ca * a11 - wr * d1) * (ca * a22 - wr * d2) -
        ca * a12 * (ca * a21) ≠ 0 := by
      intro h
      rw [h] at hdeg
      simp only [abs_zero] at hdeg
      exact hdeg hsmin
    have hdet : (ca * a11 - wr * d1) * (ca * a22 - wr * d2) -
        (if ltrans then ca * a21 else ca * a12) *
        (if ltrans then ca * a12 else ca * a21) ≠ 0 := by
      have h1 : (if ltrans then ca * a21 else ca * a12) *
          (if ltrans then ca * a12 else ca * a21) =
          ca * a12 * (ca * a21) := by
        cases ltrans
        · simp
        · simp only [if_true]
          ring
      rw [h1]
      exact hdet0
    rw [dlaln2_2_reg ltrans smin bignum ca a11 a12 a21 a22 d1 d2 wr b1 b2
      hdeg] at ho2
    subst ho2
    have hc := cramer2_solve (ca * a11 - wr * d1)
      (if ltrans then ca * a21 else ca * a12)
      (if ltrans then ca * a12 else ca * a21) (ca * a22 - wr * d2)
      (safeScale |(ca * a11 - wr * d1) * (ca * a22 - wr * d2) -
          (if ltrans then ca * a21 else ca * a12) *
          (if ltrans then ca * a12 else ca * a21)|
        (max |b1| |b2|) bignum) b1 b2 hdet
    exact ⟨(safeScale_bounds _ _ _).1, (safeScale_bounds _ _ _).2,
      ca * a11 - wr * d1, (if ltrans then ca * a21 else ca * a12),
      (if ltrans then ca * a12 else ca * a21), ca * a22 - wr * d2,
      by simpa using hdeg, fun _ => ⟨rfl, rfl, rfl, rfl⟩, by simp, hdet,
      hc.1, hc.2, rfl⟩

/-- Output bundle of the Small-System Solver model for a 2-by-2 block with
a complex shift: the complex solution 2-vector stored as real/imaginary
parts, the applied right-hand-side scale factor, the norm estimate of the
solution, and the degeneracy flag. -/
structure Laln2Out4 where
  x1r : ℚ
  x1i : ℚ
  x2r : ℚ
  x2i : ℚ
  scale : ℚ
  xnorm : ℚ
  info : Nat
  deriving DecidableEq, Repr

/-- Real part of the product of the complex numbers (ar, ai) and (br, bi). -/
def cmulRe (ar ai br bi : ℚ) : ℚ := ar * br - ai * bi

/-- Imaginary part of the product of the complex numbers (ar, ai) and
(br, bi). -/
def cmulIm (ar ai br bi : ℚ) : ℚ := ar * bi + ai * br

/-- Modelled from the spec: the Small-System Solver for a 2-by-2 coefficient
block with a complex shift (LAPACK dlaln2 with na = 2, nw = 2; its body is
outside the slice).  The coefficient is the complex matrix
ca*A - (wr + i*wi) * diag(d1, d2): its diagonal entries are complex and its
off-diagonal entries real; a transposed call solves the transposed system,
which swaps the two (real) off-diagonal entries.  The right-hand side and
the solution are complex 2-vectors stored as real/imaginary parts.  A block
whose complex determinant falls below smin in one-norm is floored to the
smin-scaled identity and reported through info = 1; the right-hand side is
scaled down first by safeScale when the solution could overflow.  The
division by the complex determinant is carried out exactly through the
conjugate. -/
def dlaln2_2c (ltrans : Bool)
    (smin bignum ca a11 a12 a21 a22 d1 d2 wr wi b1r b1i b2r b2i : ℚ) :
    Laln2Out4 :=
  let c11r := ca * a11 - wr * d1
  let c11i := -(wi * d1)
  let c12 := ca * a12
  let c21 := ca * a21
  let c22r := ca * a22 - wr * d2
  let c22i := -(wi * d2)
  let t12 := if ltrans then c21 else c12
  let t21 := if ltrans then c12 else c21
  let deg := |cmulRe c11r c11i c22r c22i - c12 * c21| +
             |cmulIm c11r c11i c22r c22i| < smin
  let e11r := if deg then smin else c11r
  let e11i := if deg then 0 else c11i
  let e12 := if deg then 0 else t12
  let e21 := if deg then 0 else t21
  let e22r := if deg then smin else c22r
  let e22i := if deg then 0 else c22i
  let dr := cmulRe e11r e11i e22r e22i - e12 * e21
  let di := cmulIm e11r e11i e22r e22i
  let drr := dr * dr + di * di
  let bnorm := max (|b1r| + |b1i|) (|b2r| + |b2i|)
  let scale := safeScale (|dr| + |di|) bnorm bignum
  let n1r := scale * cmulRe b1r b1i e22r e22i - scale * (b2r * e12)
  let n1i := scale * cmulIm b1r b1i e22r e22i - scale * (b2i * e12)
  let n2r := scale * cmulRe b2r b2i e11r e11i - scale * (b1r * e21)
  let n2i := scale * cmulIm b2r b2i e11r e11i - scale * (b1i * e21)
  let x1r := (n1r * dr + n1i * di) / drr
  let x1i := (n1i * dr - n1r * di) / drr
  let x2r := (n2r * dr + n2i * di) / drr
  let x2i := (n2i * dr - n2r * di) / drr
  { x1r := x1r, x1i := x1i, x2r := x2r, x2i := x2i, scale := scale,
    xnorm := max (|x1r| + |x1i|) (|x2r| + |x2i|),
    info := if deg then 1 else 0 }

theorem ccramer2_solve (e11r e11i e12 e21 e22r e22i s b1r b1i b2r b2i
    dr di drr n1r n1i n2r n2i x1r x1i x2r x2i : ℚ)
    (hdr : dr = cmulRe e11r e11i e22r e22i - e12 * e21)
    (hdi : di = cmulIm e11r e11i e22r e22i)
    (hdrr : drr = dr * dr + di * di)
    (hd : drr ≠ 0)
    (hn1r : n1r = s * cmulRe b1r b1i e22r e22i - s * (b2r * e12))
    (hn1i : n1i = s * cmulIm b1r b1i e22r e22i - s * (b2i * e12))
    (hn2r : n2r = s * cmulRe b2r b2i e11r e11i - s * (b1r * e21))
    (hn2i : n2i = s * cmulIm b2r b2i e11r e11i - s * (b1i * e21))
    (hx1r : x1r = (n1r * dr + n1i * di) / drr)
    (hx1i : x1i = (n1i * dr - n1r * di) / drr)
    (hx2r : x2r = (n2r * dr + n2i * di) / drr)
    (hx2i : x2i = (n2i * dr - n2r * di) / drr) :
    cmulRe e11r e11i x1r x1i + e12 * x2r = s * b1r ∧
    cmulIm e11r e11i x1r x1i + e12 * x2i = s * b1i ∧
    e21 * x1r + cmulRe e22r e22i x2r x2i = s * b2r ∧
    e21 * x1i + cmulIm e22r e22i x2r x2i = s * b2i := by
  subst hx1r hx1i hx2r hx2i hn1r hn1i hn2r hn2i hdrr hdr hdi
  simp only [cmulRe, cmulIm] at hd ⊢
  refine ⟨?_, ?_, ?_, ?_⟩ <;> (field_simp; ring)

theorem dlaln2_2c_deg (ltrans : Bool)
    (smin bignum ca a11 a12 a21 a22 d1 d2 wr wi b1r b1i b2r b2i : ℚ)
    (hdeg : |cmulRe (ca * a11 - wr * d1) (-(wi * d1))
        (ca * a22 - wr * d2) (-(wi * d2)) - ca * a12 * (ca * a21)| +
      |cmulIm (ca * a11 - wr * d1) (-(wi * d1))
        (ca * a22 - wr * d2) (-(wi * d2))| < smin) :
    dlaln2_2c ltrans smin bignum ca a11 a12 a21 a22 d1 d2 wr wi
        b1r b1i b2r b2i =
      (let dr := cmulRe smin 0 smin 0 - 0 * 0
       let di := cmulIm smin 0 smin 0
       let drr := dr * dr + di * di
       let bnorm := max (|b1r| + |b1i|) (|b2r| + |b2i|)
       let scale := safeScale (|dr| + |di|) bnorm bignum
       let n1r := scale * cmulRe b1r b1i smin 0 - scale * (b2r * 0)
       let n1i := scale * cmulIm b1r b1i smin 0 - scale * (b2i * 0)
       let n2r := scale * cmulRe b2r b2i smin 0 - scale * (b1r * 0)
       let n2i := scale * cmulIm b2r b2i smin 0 - scale * (b1i * 0)
       let x1r := (n1r * dr + n1i * di) / drr
       let x1i := (n1i * dr - n1r * di) / drr
       let x2r := (n2r * dr + n2i * di) / drr
       let x2i := (n2i * dr - n2r * di) / drr
       { x1r := x1r, x1i := x1i, x2r := x2r, x2i := x2i, scale := scale,
         xnorm := max (|x1r| + |x1i|) (|x2r| + |x2i|), info := 1 }) := by
  simp only [dlaln2_2c, if_pos hdeg]

theorem dlaln2_2c_reg (ltrans : Bool)
    (smin bignum ca a11 a12 a21 a22 d1 d2 wr wi b1r b1i b2r b2i : ℚ)
    (hdeg : ¬ (|cmulRe (ca * a11 - wr * d1) (-(wi * d1))
        (ca * a22 - wr * d2) (-(wi * d2)) - ca * a12 * (ca * a21)| +
      |cmulIm (ca * a11 - wr * d1) (-(wi * d1))
        (ca * a22 - wr * d2) (-(wi * d2))| < smin)) :
    dlaln2_2c ltrans smin bignum ca a11 a12 a21 a22 d1 d2 wr wi
        b1r b1i b2r b2i =
      (let e11r := ca * a11 - wr * d1
       let e11i := -(wi * d1)
       let e12 := if ltrans then ca * a21 else ca * a12
       let e21 := if ltrans then ca * a12 else ca * a21
       let e22r := ca * a22 - wr * d2
       let e22i := -(wi * d2)
       let dr := cmulRe e11r e11i e22r e22i - e12 * e21
       let di := cmulIm e11r e11i e22r e22i
       let drr := dr * dr + di * di
       let bnorm := max (|b1r| + |b1i|) (|b2r| + |b2i|)
       let scale := safeScale (|dr| + |di|) bnorm bignum
       let n1r := scale * cmulRe b1r b1i e22r e22i - scale * (b2r * e12)
       let n1i := scale * cmulIm b1r b1i e22r e22i - scale * (b2i * e12)
       let n2r := scale * cmulRe b2r b2i e11r e11i - scale * (b1r * e21)
       let n2i := scale * cmulIm b2r b2i e11r e11i - scale * (b1i * e21)
       let x1r := (n1r * dr + n1i * di) / drr
       let x1i := (n1i * dr - n1r * di) / drr
       let x2r := (n2r * dr + n2i * di) / drr
       let x2i := (n2i * dr - n2r * di) / drr
       { x1r := x1r, x1i := x1i, x2r := x2r, x2i := x2i, scale := scale,
         xnorm := max (|x1r| + |x1i|) (|x2r| + |x2i|), info := 0 }) := by
  simp only [dlaln2_2c, if_neg hdeg]

theorem dlaln2_2c_contract (ltrans : Bool)
    (smin bignum ca a11 a12 a21 a22 d1 d2 wr wi b1r b1i b2r b2i : ℚ)
    (o3 : Laln2Out4)
    (ho3 : o3 = dlaln2_2c ltrans smin bignum ca a11 a12 a21 a22 d1 d2 wr wi
      b1r b1i b2r b2i)
    (hsmin : 0 < smin) :
    0 < o3.scale ∧ o3.scale ≤ 1 ∧
    ∃ e11r e11i e12 e21 e22r e22i : ℚ,
      (o3.info = 1 ↔
        |cmulRe (ca * a11 - wr * d1) (-(wi * d1))
            (ca * a22 - wr * d2) (-(wi * d2)) - ca * a12 * (ca * a21)| +
          |cmulIm (ca * a11 - wr * d1) (-(wi * d1))
            (ca * a22 - wr * d2) (-(wi * d2))| < smin) ∧
      (o3.info = 0 → e11r = ca * a11 - wr * d1 ∧ e11i = -(wi * d1) ∧
        e22r = ca * a22 - wr * d2 ∧ e22i = -(wi * d2) ∧
        e12 = (if ltrans then ca * a21 else ca * a12) ∧
        e21 = (if ltrans then ca * a12 else ca * a21)) ∧
      (o3.info = 1 → e11r = smin ∧ e11i = 0 ∧ e12 = 0 ∧ e21 = 0 ∧
        e22r = smin ∧ e22i = 0) ∧
      ((cmulRe e11r e11i e22r e22i - e12 * e21) *
          (cmulRe e11r e11i e22r e22i - e12 * e21) +
        cmulIm e11r e11i e22r e22i * cmulIm e11r e11i e22r e22i ≠ 0) ∧
      cmulRe e11r e11i o3.x1r o3.x1i + e12 * o3.x2r = o3.scale * b1r ∧
      cmulIm e11r e11i o3.x1r o3.x1i + e12 * o3.x2i = o3.scale * b1i ∧
      e21 * o3.x1r + cmulRe e22r e22i o3.x2r o3.x2i = o3.scale * b2r ∧
      e21 * o3.x1i + cmulIm e22r e22i o3.x2r o3.x2i = o3.scale * b2i ∧
      o3.xnorm = max (|o3.x1r| + |o3.x1i|) (|o3.x2r| + |o3.x2i|) := by
  have hsne : smin ≠ 0 := ne_of_gt hsmin
  by_cases hdeg : |cmulRe (ca * a11 - wr * d1) (-(wi * d1))
      (ca * a22 - wr * d2) (-(wi * d2)) - ca * a12 * (ca * a21)| +
    |cmulIm (ca * a11 - wr * d1) (-(wi * d1))
      (ca * a22 - wr * d2) (-(wi * d2))| < smin
  · rw [dlaln2_2c_deg ltrans smin bignum ca a11 a12 a21 a22 d1 d2 wr wi
      b1r b1i b2r b2i hdeg] at ho3
    subst ho3
    have hd : (cmulRe smin 0 smin 0 - 0 * 0) *
        (cmulRe smin 0 smin 0 - 0 * 0) +
        cmulIm smin 0 smin 0 * cmulIm smin 0 smin 0 ≠ 0 := by
      simp only [cmulRe, cmulIm]
      intro h
      have h1 : (0 : ℚ) < smin * smin := mul_pos hsmin hsmin
      nlinarith [h, h1, mul_pos h1 h1]
    have hc := ccramer2_solve smin 0 0 0 smin 0
      (safeScale (|cmulRe smin 0 smin 0 - 0 * 0| + |cmulIm smin 0 smin 0|)
        (max (|b1r| + |b1i|) (|b2r| + |b2i|)) bignum) b1r b1i b2r b2i
      _ _ _ _ _ _ _ _ _ _ _ rfl rfl rfl hd rfl rfl rfl rfl rfl rfl rfl rfl
    exact ⟨(safeScale_bounds _ _ _).1, (safeScale_bounds _ _ _).2,
      smin, 0, 0, 0, smin, 0, by simpa using hdeg, by simp,
      fun _ => ⟨rfl, rfl, rfl, rfl, rfl, rfl⟩, hd,
      hc.1, hc.2.1, hc.2.2.1, hc.2.2.2, rfl⟩
  · have h1 : (if ltrans then ca * a21 else ca * a12) *
        (if ltrans then ca * a12 else ca * a21) =
        ca * a12 * (ca * a21) := by
      cases ltrans
      · simp
      · simp only [if_true]
        ring
    have habs : 0 < |cmulRe (ca * a11 - wr * d1) (-(wi * d1))
        (ca * a22 - wr * d2) (-(wi * d2)) - ca * a12 * (ca * a21)| +
        |cmulIm (ca * a11 - wr * d1) (-(wi * d1))
          (ca * a22 - wr * d2) (-(wi * d2))| :=
      lt_of_lt_of_le hsmin (le_of_not_lt hdeg)
    have hd0 : (cmulRe (ca * a11 - wr * d1) (-(wi * d1))
          (ca * a22 - wr * d2) (-(wi * d2)) - ca * a12 * (ca * a21)) *
        (cmulRe (ca * a11 - wr * d1) (-(wi * d1))
          (ca * a22 - wr * d2) (-(wi * d2)) - ca * a12 * (ca * a21)) +
        cmulIm (ca * a11 - wr * d1) (-(wi * d1))
          (ca * a22 - wr * d2) (-(wi * d2)) *
        cmulIm (ca * a11 - wr * d1) (-(wi * d1))
          (ca * a22 - wr * d2) (-(wi * d2)) ≠ 0 := by
      have hne : cmulRe (ca * a11 - wr * d1) (-(wi * d1))
          (ca * a22 - wr * d2) (-(wi * d2)) - ca * a12 * (ca * a21) ≠ 0 ∨
          cmulIm (ca * a11 - wr * d1) (-(wi * d1))
            (ca * a22 - wr * d2) (-(wi * d2)) ≠ 0 := by
        by_contra hcon
        push_neg at hcon
        rw [hcon.1, hcon.2] at habs
        simp at habs
      rcases hne with h | h
      · have hp := mul_self_pos.mpr h
        have hq := mul_self_nonneg (cmulIm (ca * a11 - wr * d1) (-(wi * d1))
          (ca * a22 - wr * d2) (-(wi * d2)))
        intro hzero
        linarith
      · have hp := mul_self_pos.mpr h
        have hq := mul_self_nonneg (cmulRe (ca * a11 - wr * d1) (-(wi * d1))
          (ca * a22 - wr * d2) (-(wi * d2)) - ca * a12 * (ca * a21))
        intro hzero
        linarith
    have hd : (cmulRe (ca * a11 - wr * d1) (-(wi * d1))
          (ca * a22 - wr * d2) (-(wi * d2)) -
          (if ltrans then ca * a21 else ca * a12) *
            (if ltrans then ca * a12 else ca * a21)) *
        (cmulRe (ca * a11 - wr * d1) (-(wi * d1))
          (ca * a22 - wr * d2) (-(wi * d2)) -
          (if ltrans then ca * a21 else ca * a12) *
            (if ltrans then ca * a12 else ca * a21)) +
        cmulIm (ca * a11 - wr * d1) (-(wi * d1))
          (ca * a22 - wr * d2) (-(wi * d2)) *
        cmulIm (ca * a11 - wr * d1) (-(wi * d1))
          (ca * a22 - wr * d2) (-(wi * d2)) ≠ 0 := by
      rw [h1]
      exact hd0
    rw [dlaln2_2c_reg ltrans smin bignum ca a11 a12 a21 a22 d1 d2 wr wi
      b1r b1i b2r b2i hdeg] at ho3
    subst ho3
    have hc := ccramer2_solve (ca * a11 - wr * d1) (-(wi * d1))
      (if ltrans then ca * a21 else ca * a12)
      (if ltrans then ca * a12 else ca * a21)
      (ca * a22 - wr * d2) (-(wi * d2))
      (safeScale
        (|cmulRe (ca * a11 - wr * d1) (-(wi * d1))
            (ca * a22 - wr * d2) (-(wi * d2)) -
          (if ltrans then ca * a21 else ca * a12) *
            (if ltrans then ca * a12 else ca * a21)| +
         |cmulIm (ca * a11 - wr * d1) (-(wi * d1))
            (ca * a22 - wr * d2) (-(wi * d2))|)
        (max (|b1r| + |b1i|) (|b2r| + |b2i|)) bignum) b1r b1i b2r b2i
      _ _ _ _ _ _ _ _ _ _ _ rfl rfl rfl hd rfl rfl rfl rfl rfl rfl rfl rfl
    exact ⟨(safeScale_bounds _ _ _).1, (safeScale_bounds _ _ _).2,
      ca * a11 - wr * d1, -(wi * d1),
      (if ltrans then ca * a21 else ca * a12),
      (if ltrans then ca * a12 else ca * a21),
      ca * a22 - wr * d2, -(wi * d2),
      by simpa using hdeg, fun _ => ⟨rfl, rfl, rfl, rfl, rfl, rfl⟩,
      by simp, hd, hc.1, hc.2.1, hc.2.2.1, hc.2.2.2, rfl⟩

/-- Claim C5: for every call to the Small-System Solver model — a 1-by-1
block with real or complex shift, or a 2-by-2 block with real or complex
shift, optionally transposed — the returned scale factor lies in (0, 1];
the returned solution solves the (possibly smin-floored) coefficient system
with the right-hand side scaled by that factor exactly; the returned xnorm
is the norm estimate of the solution; and a degenerate (near-singular)
system is reported through the output flag info = 1, exactly when the raw
coefficient falls below the smin threshold, rather than by failing. -/
theorem C5_dlaln2_contract (nw : Nat) (ltrans : Bool)
    (smin bignum ca a d1 wr wi b1 b2 a11 a12 a21 a22 d2 c1 c2 : ℚ)
    (o o2 : Laln2Out) (o3 : Laln2Out4)
    (ho : o = dlaln2_1 nw smin bignum ca a d1 wr wi b1 b2)
    (ho2 : o2 = dlaln2_2 ltrans smin bignum ca a11 a12 a21 a22 d1 d2 wr b1 b2)
    (ho3 : o3 = dlaln2_2c ltrans smin bignum ca a11 a12 a21 a22 d1 d2 wr wi
      b1 c1 b2 c2)
    (hsmin : 0 < smin) :
    (0 < o.scale ∧ o.scale ≤ 1 ∧
     (nw = 1 →
       ∃ cr : ℚ,
         (o.info = 1 ↔ |ca * a - wr * d1| < smin) ∧
         (o.info = 0 → cr = ca * a - wr * d1) ∧
         (o.info = 1 → cr = smin) ∧
         cr ≠ 0 ∧
         cr * o.x1 = o.scale * b1 ∧
         o.x2 = 0 ∧
         o.xnorm = |o.x1|) ∧
     (nw ≠ 1 →
       ∃ cr ci : ℚ,
         (o.info = 1 ↔ |ca * a - wr * d1| + |wi * d1| < smin) ∧
         (o.info = 0 → cr = ca * a - wr * d1 ∧ ci = -(wi * d1)) ∧
         (o.info = 1 → cr = smin ∧ ci = 0) ∧
         (cr ≠ 0 ∨ ci ≠ 0) ∧
         cr * o.x1 - ci * o.x2 = o.scale * b1 ∧
         ci * o.x1 + cr * o.x2 = o.scale * b2 ∧
         o.xnorm = |o.x1| + |o.x2|)) ∧
    (0 < o2.scale ∧ o2.scale ≤ 1 ∧
     ∃ e11 e12 e21 e22 : ℚ,
       (o2.info = 1 ↔ |(ca * a11 - wr * d1) * (ca * a22 - wr * d2) -
         ca * a12 * (ca * a21)| < smin) ∧
       (o2.info = 0 → e11 = ca * a11 - wr * d1 ∧ e22 = ca * a22 - wr * d2 ∧
         e12 = (if ltrans then ca * a21 else ca * a12) ∧
         e21 = (if ltrans then ca * a12 else ca * a21)) ∧
       (o2.info = 1 → e11 = smin ∧ e12 = 0 ∧ e21 = 0 ∧ e22 = smin) ∧
       e11 * e22 - e12 * e21 ≠ 0 ∧
       e11 * o2.x1 + e12 * o2.x2 = o2.scale * b1 ∧
       e21 * o2.x1 + e22 * o2.x2 = o2.scale * b2 ∧
       o2.xnorm = max |o2.x1| |o2.x2|) ∧
    (0 < o3.scale ∧ o3.scale ≤ 1 ∧
     ∃ e11r e11i e12 e21 e22r e22i : ℚ,
       (o3.info = 1 ↔
         |cmulRe (ca * a11 - wr * d1) (-(wi * d1))
             (ca * a22 - wr * d2) (-(wi * d2)) - ca * a12 * (ca * a21)| +
           |cmulIm (ca * a11 - wr * d1) (-(wi * d1))
             (ca * a22 - wr * d2) (-(wi * d2))| < smin) ∧
       (o3.info = 0 → e11r = ca * a11 - wr * d1 ∧ e11i = -(wi * d1) ∧
         e22r = ca * a22 - wr * d2 ∧ e22i = -(wi * d2) ∧
         e12 = (if ltrans then ca * a21 else ca * a12) ∧
         e21 = (if ltrans then ca * a12 else ca * a21)) ∧
       (o3.info = 1 → e11r = smin ∧ e11i = 0 ∧ e12 = 0 ∧ e21 = 0 ∧
         e22r = smin ∧ e22i = 0) ∧
       ((cmulRe e11r e11i e22r e22i - e12 * e21) *
           (cmulRe e11r e11i e22r e22i - e12 * e21) +
         cmulIm e11r e11i e22r e22i * cmulIm e11r e11i e22r e22i ≠ 0) ∧
       cmulRe e11r e11i o3.x1r o3.x1i + e12 * o3.x2r = o3.scale * b1 ∧
       cmulIm e11r e11i o3.x1r o3.x1i + e12 * o3.x2i = o3.scale * c1 ∧
       e21 * o3.x1r + cmulRe e22r e22i o3.x2r o3.x2i = o3.scale * b2 ∧
       e21 * o3.x1i + cmulIm e22r e22i o3.x2r o3.x2i = o3.scale * c2 ∧
       o3.xnorm = max (|o3.x1r| + |o3.x1i|) (|o3.x2r| + |o3.x2i|)) :=
  ⟨dlaln2_1_contract nw smin bignum ca a d1 wr wi b1 b2 o ho hsmin,
   dlaln2_2_contract ltrans smin bignum ca a11 a12 a21 a22 d1 d2 wr b1 b2
     o2 ho2 hsmin,
   dlaln2_2c_contract ltrans smin bignum ca a11 a12 a21 a22 d1 d2 wr wi
     b1 c1 b2 c2 o3 ho3 hsmin⟩

/-- Witness for C5: the contract evaluated on concrete nondegenerate calls:
a 1-by-1 real-shift system with coefficient 1*3 - 1*1 = 2 and right-hand
side 4; an untransposed real-shift 2-by-2 diagonal system with entries 2
and 4; and the same 2-by-2 block under the complex shift 1 + i, whose
complex determinant is 7 - 6i. -/
theorem C5_dlaln2_contract_witness :
    (dlaln2_1 1 1 2 1 3 1 1 1 4 0 = dlaln2_1 1 1 2 1 3 1 1 1 4 0) ∧
    (dlaln2_2 false 1 2 1 3 0 0 5 1 1 1 4 0 =
      dlaln2_2 false 1 2 1 3 0 0 5 1 1 1 4 0) ∧
    (dlaln2_2c false 1 2 1 3 0 0 5 1 1 1 1 4 0 0 0 =
      dlaln2_2c false 1 2 1 3 0 0 5 1 1 1 1 4 0 0 0) ∧
    ((0 : ℚ) < 1) ∧
    ((0 < (dlaln2_1 1 1 2 1 3 1 1 1 4 0).scale ∧
      (dlaln2_1 1 1 2 1 3 1 1 1 4 0).scale ≤ 1 ∧
      ((1 : Nat) = 1 →
        ∃ cr : ℚ,
          ((dlaln2_1 1 1 2 1 3 1 1 1 4 0).info = 1 ↔
            |(1 : ℚ) * 3 - 1 * 1| < 1) ∧
          ((dlaln2_1 1 1 2 1 3 1 1 1 4 0).info = 0 →
            cr = (1 : ℚ) * 3 - 1 * 1) ∧
          ((dlaln2_1 1 1 2 1 3 1 1 1 4 0).info = 1 → cr = 1) ∧
          cr ≠ 0 ∧
          cr * (dlaln2_1 1 1 2 1 3 1 1 1 4 0).x1 =
            (dlaln2_1 1 1 2 1 3 1 1 1 4 0).scale * 4 ∧
          (dlaln2_1 1 1 2 1 3 1 1 1 4 0).x2 = 0 ∧
          (dlaln2_1 1 1 2 1 3 1 1 1 4 0).xnorm =
            |(dlaln2_1 1 1 2 1 3 1 1 1 4 0).x1|) ∧
      ((1 : Nat) ≠ 1 →
        ∃ cr ci : ℚ,
          ((dlaln2_1 1 1 2 1 3 1 1 1 4 0).info = 1 ↔
            |(1 : ℚ) * 3 - 1 * 1| + |(1 : ℚ) * 1| < 1) ∧
          ((dlaln2_1 1 1 2 1 3 1 1 1 4 0).info = 0 →
            cr = (1 : ℚ) * 3 - 1 * 1 ∧ ci = -((1 : ℚ) * 1)) ∧
          ((dlaln2_1 1 1 2 1 3 1 1 1 4 0).info = 1 → cr = 1 ∧ ci = 0) ∧
          (cr ≠ 0 ∨ ci ≠ 0) ∧
          cr * (dlaln2_1 1 1 2 1 3 1 1 1 4 0).x1 -
            ci * (dlaln2_1 1 1 2 1 3 1 1 1 4 0).x2 =
            (dlaln2_1 1 1 2 1 3 1 1 1 4 0).scale * 4 ∧
          ci * (dlaln2_1 1 1 2 1 3 1 1 1 4 0).x1 +
            cr * (dlaln2_1 1 1 2 1 3 1 1 1 4 0).x2 =
            (dlaln2_1 1 1 2 1 3 1 1 1 4 0).scale * 0 ∧
          (dlaln2_1 1 1 2 1 3 1 1 1 4 0).xnorm =
            |(dlaln2_1 1 1 2 1 3 1 1 1 4 0).x1| +
              |(dlaln2_1 1 1 2 1 3 1 1 1 4 0).x2|)) ∧
     (0 < (dlaln2_2 false 1 2 1 3 0 0 5 1 1 1 4 0).scale ∧
      (dlaln2_2 false 1 2 1 3 0 0 5 1 1 1 4 0).scale ≤ 1 ∧
      ∃ e11 e12 e21 e22 : ℚ,
        ((dlaln2_2 false 1 2 1 3 0 0 5 1 1 1 4 0).info = 1 ↔
          |((1 : ℚ) * 3 - 1 * 1) * ((1 : ℚ) * 5 - 1 * 1) -
            (1 : ℚ) * 0 * ((1 : ℚ) * 0)| < 1) ∧
        ((dlaln2_2 false 1 2 1 3 0 0 5 1 1 1 4 0).info = 0 →
          e11 = (1 : ℚ) * 3 - 1 * 1 ∧ e22 = (1 : ℚ) * 5 - 1 * 1 ∧
          e12 = (if false then (1 : ℚ) * 0 else (1 : ℚ) * 0) ∧
          e21 = (if false then (1 : ℚ) * 0 else (1 : ℚ) * 0)) ∧
        ((dlaln2_2 false 1 2 1 3 0 0 5 1 1 1 4 0).info = 1 →
          e11 = 1 ∧ e12 = 0 ∧ e21 = 0 ∧ e22 = 1) ∧
        e11 * e22 - e12 * e21 ≠ 0 ∧
        e11 * (dlaln2_2 false 1 2 1 3 0 0 5 1 1 1 4 0).x1 +
          e12 * (dlaln2_2 false 1 2 1 3 0 0 5 1 1 1 4 0).x2 =
          (dlaln2_2 false 1 2 1 3 0 0 5 1 1 1 4 0).scale * 4 ∧
        e21 * (dlaln2_2 false 1 2 1 3 0 0 5 1 1 1 4 0).x1 +
          e22 * (dlaln2_2 false 1 2 1 3 0 0 5 1 1 1 4 0).x2 =
          (dlaln2_2 false 1 2 1 3 0 0 5 1 1 1 4 0).scale * 0 ∧
        (dlaln2_2 false 1 2 1 3 0 0 5 1 1 1 4 0).xnorm =
          max |(dlaln2_2 false 1 2 1 3 0 0 5 1 1 1 4 0).x1|
            |(dlaln2_2 false 1 2 1 3 0 0 5 1 1 1 4 0).x2|) ∧
     (0 < (dlaln2_2c false 1 2 1 3 0 0 5 1 1 1 1 4 0 0 0).scale ∧
      (dlaln2_2c false 1 2 1 3 0 0 5 1 1 1 1 4 0 0 0).scale ≤ 1 ∧
      ∃ e11r e11i e12 e21 e22r e22i : ℚ,
        ((dlaln2_2c false 1 2 1 3 0 0 5 1 1 1 1 4 0 0 0).info = 1 ↔
          |cmulRe ((1 : ℚ) * 3 - 1 * 1) (-((1 : ℚ) * 1))
              ((1 : ℚ) * 5 - 1 * 1) (-((1 : ℚ) * 1)) -
            (1 : ℚ) * 0 * ((1 : ℚ) * 0)| +
            |cmulIm ((1 : ℚ) * 3 - 1 * 1) (-((1 : ℚ) * 1))
              ((1 : ℚ) * 5 - 1 * 1) (-((1 : ℚ) * 1))| < 1) ∧
        ((dlaln2_2c false 1 2 1 3 0 0 5 1 1 1 1 4 0 0 0).info = 0 →
          e11r = (1 : ℚ) * 3 - 1 * 1 ∧ e11i = -((1 : ℚ) * 1) ∧
          e22r = (1 : ℚ) * 5 - 1 * 1 ∧ e22i = -((1 : ℚ) * 1) ∧
          e12 = (if false then (1 : ℚ) * 0 else (1 : ℚ) * 0) ∧
          e21 = (if false then (1 : ℚ) * 0 else (1 : ℚ) * 0)) ∧
        ((dlaln2_2c false 1 2 1 3 0 0 5 1 1 1 1 4 0 0 0).info = 1 →
          e11r = 1 ∧ e11i = 0 ∧ e12 = 0 ∧ e21 = 0 ∧
          e22r = 1 ∧ e22i = 0) ∧
        ((cmulRe e11r e11i e22r e22i - e12 * e21) *
            (cmulRe e11r e11i e22r e22i - e12 * e21) +
          cmulIm e11r e11i e22r e22i * cmulIm e11r e11i e22r e22i ≠ 0) ∧
        cmulRe e11r e11i (dlaln2_2c false 1 2 1 3 0 0 5 1 1 1 1 4 0 0 0).x1r
            (dlaln2_2c false 1 2 1 3 0 0 5 1 1 1 1 4 0 0 0).x1i +
          e12 * (dlaln2_2c false 1 2 1 3 0 0 5 1 1 1 1 4 0 0 0).x2r =
          (dlaln2_2c false 1 2 1 3 0 0 5 1 1 1 1 4 0 0 0).scale * 4 ∧
        cmulIm e11r e11i (dlaln2_2c false 1 2 1 3 0 0 5 1 1 1 1 4 0 0 0).x1r
            (dlaln2_2c false 1 2 1 3 0 0 5 1 1 1 1 4 0 0 0).x1i +
          e12 * (dlaln2_2c false 1 2 1 3 0 0 5 1 1 1 1 4 0 0 0).x2i =
          (dlaln2_2c false 1 2 1 3 0 0 5 1 1 1 1 4 0 0 0).scale * 0 ∧
        e21 * (dlaln2_2c false 1 2 1 3 0 0 5 1 1 1 1 4 0 0 0).x1r +
          cmulRe e22r e22i
            (dlaln2_2c false 1 2 1 3 0 0 5 1 1 1 1 4 0 0 0).x2r
            (dlaln2_2c false 1 2 1 3 0 0 5 1 1 1 1 4 0 0 0).x2i =
          (dlaln2_2c false 1 2 1 3 0 0 5 1 1 1 1 4 0 0 0).scale * 0 ∧
        e21 * (dlaln2_2c false 1 2 1 3 0 0 5 1 1 1 1 4 0 0 0).x1i +
          cmulIm e22r e22i
            (dlaln2_2c false 1 2 1 3 0 0 5 1 1 1 1 4 0 0 0).x2r
            (dlaln2_2c false 1 2 1 3 0 0 5 1 1 1 1 4 0 0 0).x2i =
          (dlaln2_2c false 1 2 1 3 0 0 5 1 1 1 1 4 0 0 0).scale * 0 ∧
        (dlaln2_2c false 1 2 1 3 0 0 5 1 1 1 1 4 0 0 0).xnorm =
          max (|(dlaln2_2c false 1 2 1 3 0 0 5 1 1 1 1 4 0 0 0).x1r| +
              |(dlaln2_2c false 1 2 1 3 0 0 5 1 1 1 1 4 0 0 0).x1i|)
            (|(dlaln2_2c false 1 2 1 3 0 0 5 1 1 1 1 4 0 0 0).x2r| +
              |(dlaln2_2c false 1 2 1 3 0 0 5 1 1 1 1 4 0 0 0).x2i|))) :=
  ⟨rfl, rfl, rfl, by norm_num,
   C5_dlaln2_contract 1 false 1 2 1 3 1 1 1 4 0 3 0 0 5 1 0 0
     (dlaln2_1 1 1 2 1 3 1 1 1 4 0)
     (dlaln2_2 false 1 2 1 3 0 0 5 1 1 1 4 0)
     (dlaln2_2c false 1 2 1 3 0 0 5 1 1 1 1 4 0 0 0)
     rfl rfl rfl (by norm_num)⟩

/-! ### Claim C6: back-substitution scaling discipline

The Back-Substitution Engine bodies (LAPACK dtgevc behind
starneig_eigvec_gen_dtgevc and the task kernels calling
starneig_eigvec_gen_dlaln2) are outside the slice; the scaling discipline
below is modelled from the spec. -/

/-- Modelled from the spec: the running scale of one eigenvector during
back-substitution: starting from the initial scale c, each block step
multiplies the cumulative scale by its step scale; the trace lists the
cumulative scale before the first step and after every step. -/
def scaleTrace (c : ℚ) (ss : List ℚ) : List ℚ :=
  ss.scanl (fun acc s => acc * s) c

/-- Modelled from the spec: run the scaling steps of one eigenvector.  A
step that would push the cumulative scale below the smallest representable
positive number smlnum marks this eigenvalue's computation as failed
(`none`); otherwise the final cumulative scale is returned. -/
def runEigScale (smlnum : ℚ) : ℚ → List ℚ → Option ℚ
  | c, [] => some c
  | c, s :: ss => if c * s < smlnum then none else runEigScale smlnum (c * s) ss

/-- Modelled from the spec: the batch loop of the Back-Substitution Engine:
each selected eigenvalue's vector is computed independently, starting from
cumulative scale 1; a failed eigenvalue yields `none` in its own slot
only. -/
def runBatch (smlnum : ℚ) (batch : List (List ℚ)) : List (Option ℚ) :=
  batch.map (runEigScale smlnum 1)

theorem scaleTrace_head (c : ℚ) (ss : List ℚ) :
    (scaleTrace c ss).head? = some c := by
  cases ss <;> rfl

theorem scaleTrace_chain (ss : List ℚ) : ∀ c : ℚ, 0 ≤ c →
    (∀ s ∈ ss, 0 ≤ s ∧ s ≤ 1) →
    List.Chain' (fun x y => y ≤ x) (scaleTrace c ss) := by
  induction ss with
  | nil =>
      intro c _ _
      exact List.chain'_singleton c
  | cons s ss ih =>
      intro c hc hss
      have hs := hss s (List.mem_cons_self s ss)
      have hstep : scaleTrace c (s :: ss) = c :: scaleTrace (c * s) ss := rfl
      rw [hstep, List.chain'_cons']
      constructor
      · intro y hy
        rw [scaleTrace_head] at hy
        cases hy
        exact mul_le_of_le_one_right hc hs.2
      · exact ih (c * s) (mul_nonneg hc hs.1)
          (fun t ht => hss t (List.mem_cons_of_mem s ht))

theorem runEigScale_prod (smlnum : ℚ) (ss : List ℚ) : ∀ c r : ℚ,
    runEigScale smlnum c ss = some r → r = c * ss.prod := by
  induction ss with
  | nil =>
      intro c r h
      simp only [runEigScale, Option.some.injEq] at h
      rw [← h]
      simp
  | cons s ss ih =>
      intro c r h
      simp only [runEigScale] at h
      split_ifs at h with hcut
      have := ih (c * s) r h
      rw [this, List.prod_cons]
      ring

/-- Claim C6: during back-substitution the cumulative scale of one
eigenvector is multiplicative (on success it equals the initial scale times
the product of the step scales) and monotonically non-increasing when every
step scale lies in (0, 1]; and a vector that would require scaling below
the smallest representable positive number fails alone: the batch result
carries `none` exactly in that eigenvalue's slot while every other slot is
the same independent computation. -/
theorem C6_backsubst_scaling (smlnum c : ℚ) (ss : List ℚ)
    (hc : 0 ≤ c) (hss : ∀ s ∈ ss, 0 < s ∧ s ≤ 1) :
    List.Chain' (fun x y => y ≤ x) (scaleTrace c ss) ∧
    (∀ r, runEigScale smlnum c ss = some r → r = c * ss.prod) ∧
    (∀ batch : List (List ℚ), ∀ i,
      (runBatch smlnum batch).get? i =
        (batch.get? i).map (runEigScale smlnum 1)) ∧
    (∀ pre post : List (List ℚ), ∀ bad,
      runEigScale smlnum 1 bad = none →
        runBatch smlnum (pre ++ bad :: post) =
          runBatch smlnum pre ++ none :: runBatch smlnum post) := by
  refine ⟨scaleTrace_chain ss c hc
      (fun s hs => ⟨(hss s hs).1.le, (hss s hs).2⟩),
    fun r h => runEigScale_prod smlnum ss c r h, ?_, ?_⟩
  · intro batch i
    simp [runBatch, List.get?_map]
  · intro pre post bad hbad
    simp [runBatch, List.map_append, hbad]

/-- Witness for C6: the scaling discipline evaluated on the concrete trace
with initial scale 1 and step scales 1/2 and 1/3, smallest positive number
1/100. -/
theorem C6_backsubst_scaling_witness :
    (0 : ℚ) ≤ 1 ∧ (∀ s ∈ [(1 : ℚ)/2, 1/3], 0 < s ∧ s ≤ 1) ∧
    (List.Chain' (fun x y => y ≤ x) (scaleTrace 1 [(1 : ℚ)/2, 1/3]) ∧
     (∀ r, runEigScale (1/100) 1 [(1 : ℚ)/2, 1/3] = some r →
        r = 1 * ([(1 : ℚ)/2, 1/3]).prod) ∧
     (∀ batch : List (List ℚ), ∀ i,
       (runBatch (1/100) batch).get? i =
         (batch.get? i).map (runEigScale (1/100) 1)) ∧
     (∀ pre post : List (List ℚ), ∀ bad,
       runEigScale (1/100) 1 bad = none →
         runBatch (1/100) (pre ++ bad :: post) =
           runBatch (1/100) pre ++ none :: runBatch (1/100) post)) :=
  ⟨by norm_num, by norm_num [List.forall_mem_cons],
   C6_backsubst_scaling (1/100) 1 [(1 : ℚ)/2, 1/3] (by norm_num)
     (by norm_num [List.forall_mem_cons])⟩

/-! ### Public operations with argument validation (claims C7, C9, C10)

The bodies of starneig_SEP_SM_ReorderSchur, starneig_SEP_SM_Eigenvectors,
starneig_SEP_SM_Select and starneig_SEP_SM_Reduce are outside the slice;
the models below follow the documented contracts of sep_sm.h: each
operation first validates its scalar arguments (order and leading
dimensions, reported by their ordinal position in the C signature) and
only then touches any data. -/

/-- Modelled from the spec: the eigenvector columns written by the
Back-Substitution Engine, one column per selected eigenvalue position; the
numeric content of a column is abstracted to the eigenvalue datum it is
computed from, which suffices for the frame-effect claims. -/
def computeX (S : List EigBlock) (sel : List Bool) : List (ℚ × ℚ) :=
  ((eigList S).zip sel).filterMap (fun e => if e.2 then some e.1 else none)

/-- Modelled from the spec: starneig_SEP_SM_ReorderSchur with its
argument-validation stage (argument ordinals: n = 1, selected = 2, S = 3,
ldS = 4, Q = 5, ldQ = 6).  On an invalid argument the blocks and selection
are returned untouched. -/
def reorderSchurFull (safe : Blk → Blk → Bool) (n ldS ldQ : Int)
    (l : List Blk) : Status × List Blk :=
  if n < 0 then (.invalidArgument 1, l)
  else if ldS < max n 1 then (.invalidArgument 4, l)
  else if ldQ < max n 1 then (.invalidArgument 6, l)
  else ((reorderSchur safe l).2, (reorderSchur safe l).1)

/-- Modelled from the spec: starneig_SEP_SM_Eigenvectors with its
argument-validation stage (argument ordinals: n = 1, selected = 2, S = 3,
ldS = 4, Q = 5, ldQ = 6, X = 7, ldX = 8).  S, Q and the selection are
consumed read-only; only X is written, and only on success. -/
def eigenvectorsFull (n ldS ldQ ldX : Int) (S : List EigBlock) (Q : Nat)
    (sel : List Bool) (X : List (ℚ × ℚ)) :
    Status × List EigBlock × Nat × List Bool × List (ℚ × ℚ) :=
  if n < 0 then (.invalidArgument 1, S, Q, sel, X)
  else if ldS < max n 1 then (.invalidArgument 4, S, Q, sel, X)
  else if ldQ < max n 1 then (.invalidArgument 6, S, Q, sel, X)
  else if ldX < max n 1 then (.invalidArgument 8, S, Q, sel, X)
  else (.success, S, Q, sel, computeX S sel)

/-- Modelled from the spec: starneig_SEP_SM_Select with its
argument-validation stage (argument ordinals: n = 1, S = 2, ldS = 3).  On
an invalid argument the selection array and count are returned untouched. -/
def selectFull (n ldS : Int) (p : ℚ → ℚ → Bool) (S : List EigBlock)
    (sel : List Bool) (cnt : Nat) : Status × List Bool × Nat :=
  if n < 0 then (.invalidArgument 1, sel, cnt)
  else if ldS < max n 1 then (.invalidArgument 3, sel, cnt)
  else (.success, (selectRun p S).1, (selectRun p S).2.1)

theorem reorderSchur_code_nonneg (safe : Blk → Blk → Bool) (l : List Blk) :
    0 ≤ (reorderSchur safe l).2.code := by
  unfold reorderSchur
  rcases hrg : reorderGo safe [] [] l with ⟨f, p, flag⟩
  cases flag <;> simp [Status.code]

/-- Claim C7: whenever one of the modelled public operations reports an
invalid argument (negative status code), the report happens before any
mutation: the Schur blocks, the orthogonal factor, the selection array, the
count and the eigenvector output are exactly as they were on entry. -/
theorem C7_invalid_argument_no_side_effects :
    (∀ (safe : Blk → Blk → Bool) (n ldS ldQ : Int) (l : List Blk),
      (reorderSchurFull safe n ldS ldQ l).1.code < 0 →
        (reorderSchurFull safe n ldS ldQ l).2 = l) ∧
    (∀ (n ldS ldQ ldX : Int) (S : List EigBlock) (Q : Nat)
        (sel : List Bool) (X : List (ℚ × ℚ)),
      (eigenvectorsFull n ldS ldQ ldX S Q sel X).1.code < 0 →
        (eigenvectorsFull n ldS ldQ ldX S Q sel X).2 = (S, Q, sel, X)) ∧
    (∀ (n ldS : Int) (p : ℚ → ℚ → Bool) (S : List EigBlock)
        (sel : List Bool) (cnt : Nat),
      (selectFull n ldS p S sel cnt).1.code < 0 →
        (selectFull n ldS p S sel cnt).2 = (sel, cnt)) := by
  refine ⟨?_, ?_, ?_⟩
  · intro safe n ldS ldQ l h
    unfold reorderSchurFull at h ⊢
    split_ifs at h ⊢
    · rfl
    · rfl
    · rfl
    · exact absurd h (not_lt.mpr (reorderSchur_code_nonneg safe l))
  · intro n ldS ldQ ldX S Q sel X h
    unfold eigenvectorsFull at h ⊢
    split_ifs at h ⊢
    · rfl
    · rfl
    · rfl
    · rfl
    · exact absurd h (by simp [Status.code])
  · intro n ldS p S sel cnt h
    unfold selectFull at h ⊢
    split_ifs at h ⊢
    · rfl
    · rfl
    · exact absurd h (by simp [Status.code])

/-- Witness for C7: each modelled operation called with the invalid order
n = -1 reports a negative code and leaves its data untouched. -/
theorem C7_invalid_argument_no_side_effects_witness :
    ((reorderSchurFull (fun _ _ => true) (-1) 1 1
        [⟨true, 1, 0⟩]).1.code < 0 ∧
      (reorderSchurFull (fun _ _ => true) (-1) 1 1 [⟨true, 1, 0⟩]).2 =
        [⟨true, 1, 0⟩]) ∧
    ((eigenvectorsFull (-1) 1 1 1 [EigBlock.real 5] 7 [true]
        []).1.code < 0 ∧
      (eigenvectorsFull (-1) 1 1 1 [EigBlock.real 5] 7 [true] []).2 =
        ([EigBlock.real 5], 7, [true], [])) ∧
    ((selectFull (-1) 1 (fun _ _ => true) [EigBlock.real 5] [false]
        3).1.code < 0 ∧
      (selectFull (-1) 1 (fun _ _ => true) [EigBlock.real 5] [false] 3).2 =
        ([false], 3)) := by
  have h := C7_invalid_argument_no_side_effects
  refine ⟨⟨by decide, h.1 (fun _ _ => true) (-1) 1 1 [⟨true, 1, 0⟩]
      (by decide)⟩,
    ⟨?_, h.2.1 (-1) 1 1 1 [EigBlock.real 5] 7 [true] [] ?_⟩,
    ⟨?_, h.2.2 (-1) 1 (fun _ _ => true) [EigBlock.real 5] [false] 3 ?_⟩⟩
  · simp [eigenvectorsFull, Status.code]
  · simp [eigenvectorsFull, Status.code]
  · simp [selectFull, Status.code]
  · simp [selectFull, Status.code]

/-- Claim C9: the Back-Substitution Engine consumes the Schur matrix, the
orthogonal factor and the selection strictly read-only — on every call they
are returned exactly as passed and only the eigenvector output is written —
whereas the Reordering Engine does mutate the matrix and the selection in
place, witnessed by a run that changes the block sequence. -/
theorem C9_eigenvectors_readonly :
    (∀ (n ldS ldQ ldX : Int) (S : List EigBlock) (Q : Nat)
        (sel : List Bool) (X : List (ℚ × ℚ)),
      (eigenvectorsFull n ldS ldQ ldX S Q sel X).2.1 = S ∧
      (eigenvectorsFull n ldS ldQ ldX S Q sel X).2.2.1 = Q ∧
      (eigenvectorsFull n ldS ldQ ldX S Q sel X).2.2.2.1 = sel) ∧
    (∃ (safe : Blk → Blk → Bool) (n ldS ldQ : Int) (l : List Blk),
      (reorderSchurFull safe n ldS ldQ l).2 ≠ l) := by
  constructor
  · intro n ldS ldQ ldX S Q sel X
    unfold eigenvectorsFull
    split_ifs <;> exact ⟨rfl, rfl, rfl⟩
  · exact ⟨fun _ _ => true, 2, 2, 2,
      [⟨false, 1, 0⟩, ⟨true, 1, 1⟩], by decide⟩

/-! ### Claim C10: starneig_SEP_SM_Reduce with a NULL predicate -/

/-- The boolean the Selection Helper computes for a whole block. -/
def predVal (p : ℚ → ℚ → Bool) : EigBlock → Bool
  | .real r => p r 0
  | .pair re im => p re |im|

/-- Modelled from the spec: the Reordering Engine input assembled from a
classified Schur form and a predicate: each block carries its selection
flag, its size and its original index as tag. -/
def blkOf (p : ℚ → ℚ → Bool) (schur : List EigBlock) : List Blk :=
  schur.enum.map (fun e => ⟨predVal p e.2, e.2.size, e.1⟩)

/-- Modelled from the spec: starneig_SEP_SM_Reduce after its (excluded)
Hessenberg and Schur stages, which produce the classified Schur form given
as input here.  With a non-null predicate it runs the Selection Helper and
the Reordering Engine; with a NULL predicate (`none`) the reordering step
is skipped entirely: the Schur form is returned as produced and the
predicate is never invoked.  Returns the final Schur blocks, the selection
array, the selected count, the status and the predicate-call trace. -/
def reduceFull (safe : Blk → Blk → Bool) (schur : List EigBlock)
    (pred : Option (ℚ → ℚ → Bool)) :
    List EigBlock × List Bool × Nat × Status × List (ℚ × ℚ) :=
  match pred with
  | none => (schur, List.replicate (blockSlots schur) false, 0, .success, [])
  | some p =>
      let sr := selectRun p schur
      let rr := reorderSchur safe (blkOf p schur)
      (rr.1.filterMap (fun b => schur.get? b.tag),
       (rr.1.map (fun b => List.replicate b.sz b.sel)).join,
       sr.2.1, rr.2, sr.2.2)

/-- Claim C10: when the predicate argument of the combined reduce operation
is NULL, the reordering step is skipped entirely: the Schur form is exactly
the one produced by the reduction stages, no eigenvalue is reordered, the
status is success, and the predicate is never invoked (empty call trace);
by contrast a non-null predicate is invoked. -/
theorem C10_reduce_null_predicate (safe : Blk → Blk → Bool)
    (schur : List EigBlock) :
    (reduceFull safe schur none).1 = schur ∧
    (reduceFull safe schur none).2.2.2.2 = [] ∧
    (reduceFull safe schur none).2.2.2.1 = Status.success ∧
    (∃ (p : ℚ → ℚ → Bool) (schur2 : List EigBlock),
      (reduceFull safe schur2 (some p)).2.2.2.2 ≠ []) := by
  refine ⟨rfl, rfl, rfl, ⟨fun _ _ => true, [EigBlock.real 0], ?_⟩⟩
  simp [reduceFull, selectRun]

end StarNEig
